import Mathlib

/-! # mush: pipeline execution engine (src/msuh4.c)

A shallow embedding of the interpreter process of `msuh4.c`.  The interpreter's
descriptor table, working directory and global flags are explicit state; every
system call whose result the C code branches on is answered by an environment
record (`Env`); everything the interpreter does that is observable from outside
(diagnostics, prompts, system calls) is returned as a list of events, in order.
-/

namespace Mush

/-! ## Constants of the C library used by the source -/

/-- Descriptor number of standard input (`STDIN_FILENO`). -/
def STDIN_FILENO : Int := 0

/-- Descriptor number of standard output (`STDOUT_FILENO`). -/
def STDOUT_FILENO : Int := 1

/-- Exit status `EXIT_FAILURE`. -/
def EXIT_FAILURE : Nat := 1

/-- Value of `errno` for an interrupted system call (`EINTR`). -/
def EINTR : Nat := 4

/-! ## Descriptor tables -/

/-- Flag combinations with which the source calls `open`. -/
inductive OFlags
  | O_RDONLY
  | O_WRONLY_CREAT_TRUNC
  deriving DecidableEq

/-- Open file description a descriptor can refer to. -/
inductive Obj
  | inherited (n : Nat)
  | pipe_read (i : Nat)
  | pipe_write (i : Nat)
  | file (path : String) (flags : OFlags) (mode : Nat)
  deriving DecidableEq

/-- Descriptor table of a process: entry `n` is what descriptor `n` refers to. -/
abbrev FdTable := List (Option Obj)

/-- Lowest descriptor number that is not open. -/
def lowest_free : FdTable → Nat
  | [] => 0
  | none :: _ => 0
  | some _ :: t => lowest_free t + 1

/-- Entry of a descriptor table (`none` when the descriptor is closed). -/
def look : FdTable → Nat → Option Obj
  | [], _ => none
  | x :: _, 0 => x
  | _ :: t, n + 1 => look t n

/-- Overwrite one entry of a descriptor table. -/
def put : FdTable → Nat → Option Obj → FdTable
  | [], 0, o => [o]
  | [], n + 1, o => none :: put [] n o
  | _ :: t, 0, o => o :: t
  | x :: t, n + 1, o => x :: put t n o

/-- Entry for a C descriptor value; negative values are never open. -/
def fd_look (t : FdTable) (fd : Int) : Option Obj :=
  if fd < 0 then none else look t fd.toNat

/-- The call `close(fd)`: fails without effect on an invalid descriptor. -/
def sys_close (t : FdTable) (fd : Int) : FdTable :=
  if fd < 0 then t else put t fd.toNat none

/-- The call `dup2(oldfd, newfd)`: fails without effect when `oldfd` is not open. -/
def sys_dup2 (t : FdTable) (oldfd newfd : Int) : FdTable :=
  match fd_look t oldfd with
  | none => t
  | some o => if newfd < 0 then t else put t newfd.toNat (some o)

/-- The call `open(path, flags, mode)`: on success the lowest free descriptor,
on failure `-1` and an unchanged table. -/
def sys_open (ok : Bool) (path : String) (flags : OFlags) (mode : Nat) (t : FdTable) :
    Int × FdTable :=
  if ok then ((lowest_free t : Nat), put t (lowest_free t) (some (Obj.file path flags mode)))
  else (-1, t)

/-- A successful `pipe(fd)` for stage `i`: read end, write end, new table. -/
def sys_pipe (i : Nat) (t : FdTable) : Int × Int × FdTable :=
  let r := lowest_free t
  let t1 := put t r (some (Obj.pipe_read i))
  let w := lowest_free t1
  ((r : Nat), (w : Nat), put t1 w (some (Obj.pipe_write i)))

/-! ## Parsed pipelines (`mush.h`) -/

/-- Modelled from the spec: the stage record of `mush.h` (header not in the sources):
a command name (`argv[0]`), the remaining arguments, an optional input-redirection
path and an optional output-redirection path. -/
structure clstage where
  argv0 : String
  args : List String
  inname : Option String
  outname : Option String
  deriving DecidableEq

/-- The argument vector of a stage. -/
def clstage.argv (st : clstage) : List String := st.argv0 :: st.args

/-- The argument count of a stage. -/
def clstage.argc (st : clstage) : Nat := st.args.length + 1

/-- Modelled from the spec: the pipeline record of `mush.h`: an ordered sequence of stages. -/
structure pipeline where
  stage : List clstage
  deriving DecidableEq

/-- The field `cl->length`. -/
def pipeline.length (cl : pipeline) : Nat := cl.stage.length

/-- Modelled from the spec: the values of the global `clerror` of `mush.h`; `other`
stands for any value that is none of the named constants. -/
inductive ClError
  | E_NONE
  | E_NULL
  | E_EMPTY
  | E_BADIN
  | E_BADOUT
  | E_BADSTR
  | E_PARSE
  | other (code : Nat)
  deriving DecidableEq

/-! ## Environment, state and events -/

/-- Answers of the operating system and of the external parser. -/
structure Env where
  /-- Result of `getenv("HOME")`. -/
  getenv_HOME : Option String
  /-- Result of `getpwuid(getuid())`, and the `pw_dir` field of the entry. -/
  getpwuid : Option (Option String)
  /-- Result of `chdir(dir)` from a working directory: the new working directory, or failure. -/
  chdir : String → String → Option String
  /-- Whether the `pipe` call made for stage `i` succeeds. -/
  pipe_ok : Nat → Bool
  /-- Whether the `fork` call made for stage `i` succeeds. -/
  fork_ok : Nat → Bool
  /-- Whether an `open` call in the child of stage `i` succeeds. -/
  open_ok : Nat → String → OFlags → Bool
  /-- Whether `execvp` in the child of stage `i` succeeds. -/
  execvp_ok : Nat → List String → Bool
  /-- Whether the `wait(NULL)` the interpreter makes after the `fork` of stage `i`
  returns: the child ends.  It does not when, for instance, the child stays blocked
  writing to a full pipe that the next stage, not forked yet, is to read. -/
  wait_returns : Nat → Bool
  /-- Result of `isatty(STDIN_FILENO)`. -/
  isatty_stdin : Bool
  /-- Result of `isatty(STDOUT_FILENO)`. -/
  isatty_stdout : Bool
  /-- Result of `crack_pipeline(cmd)` together with the value it leaves in `clerror`. -/
  crack_pipeline : String → Option pipeline × ClError

/-- State of the interpreter process. -/
structure Shell where
  fds : FdTable
  cwd : String
  sigint_received : Bool
  batch : Bool
  deriving DecidableEq

/-- How the code of a child process ends. -/
inductive ChildEnd
  | execed (argv : List String)
  | exited (status : Nat)
  deriving DecidableEq

/-- Run of the child branch of `fork`: the child's descriptor table when it ends,
the tags of its `perror` diagnostics, and how it ends (`none`: control leaves the
child branch and goes on in the stage loop). -/
structure Child where
  fds : FdTable
  perrors : List String
  fin : Option ChildEnd
  deriving DecidableEq

/-- Observable actions of the interpreter process. -/
inductive Event
  | err (msg : String)
  | perror (tag : String)
  | prompt (msg : String)
  | call_cd (i : Nat)
  | chdir (dir : String) (ok : Bool)
  | pipe (i : Nat) (ok : Bool)
  | fork (i : Nat) (ok : Bool)
  | spawn (i : Nat) (c : Child)
  | wait
  | close (fd : Int)
  | free_pipeline
  | read
  | fopen (path : String) (ok : Bool)
  | terminate (status : Nat)
  deriving DecidableEq

/-- Result of running interpreter code: final state, events in order, the status
passed to `exit` when the interpreter terminated itself, and whether the interpreter
is left blocked for ever in a `wait` that does not return (the last event).  The
code returns to its caller when `exit` is `none` and `blocked` is `false`. -/
structure Run where
  shell : Shell
  trace : List Event
  exit : Option Nat
  blocked : Bool
  deriving DecidableEq

/-! ## `handle_cd_command` -/

/-- The directory `handle_cd_command` settles on (source lines 33-37): `argv[1]`
when `argc > 1`, else `getenv("HOME")`; when that is `NULL`, the `pw_dir` of the
entry `getpwuid(getuid())` if there is one. -/
def cd_dir (env : Env) (argv : List String) (argc : Nat) : Option String :=
  let dir : Option String := if argc > 1 then argv.get? 1 else env.getenv_HOME
  match dir with
  | some d => some d
  | none =>
    match env.getpwuid with
    | some pw_dir => pw_dir
    | none => none

/-- The builtin `handle_cd_command(argv, argc)` (source lines 31-43). -/
def handle_cd_command (env : Env) (argv : List String) (argc : Nat) (s : Shell) :
    List Event × Shell :=
  match cd_dir env argv argc with
  | some d =>
    match env.chdir s.cwd d with
    | some cwd1 => ([Event.chdir d true], { s with cwd := cwd1 })
    | none => ([Event.chdir d false, Event.perror "chdir"], s)
  | none => ([Event.err "unable to determine home directory\n"], s)

/-- The target directory in the words of the specification: the explicit first
argument if one is given, otherwise the value of `HOME` if it is set, otherwise the
home directory recorded for the current user in the user database. -/
def spec_cd_target (env : Env) (argv : List String) : Option String :=
  match argv with
  | _ :: d :: _ => some d
  | _ =>
    match env.getenv_HOME with
    | some h => some h
    | none =>
      match env.getpwuid with
      | some (some p) => some p
      | _ => none

/-! ## `run_command` -/

/-- Input wiring in the child (source lines 140-151): the table after it, or
`none` when the input file cannot be opened and the child exits. -/
def child_input (env : Env) (i : Nat) (stage : clstage) (prev_fd : Int) (t : FdTable) :
    Option FdTable :=
  match stage.inname with
  | some p =>
    let o := sys_open (env.open_ok i p OFlags.O_RDONLY) p OFlags.O_RDONLY 0 t
    if o.1 = -1 then none
    else some (sys_close (sys_dup2 o.2 o.1 STDIN_FILENO) o.1)
  | none =>
    if prev_fd ≠ STDIN_FILENO then some (sys_dup2 t prev_fd STDIN_FILENO) else some t

/-- Output wiring in the child (source lines 154-160); the result of `open` is
used unchecked. -/
def child_output (env : Env) (i : Nat) (stage : clstage) (fd1 : Int) (t : FdTable) : FdTable :=
  match stage.outname with
  | some p =>
    let o := sys_open (env.open_ok i p OFlags.O_WRONLY_CREAT_TRUNC) p
      OFlags.O_WRONLY_CREAT_TRUNC 0o666 t
    sys_close (sys_dup2 o.2 o.1 STDOUT_FILENO) o.1
  | none =>
    if fd1 ≠ STDOUT_FILENO then sys_dup2 t fd1 STDOUT_FILENO else t

/-- The child branch of `run_command` (source lines 138-168), run on the copy of
the descriptor table the child gets from `fork`. -/
def child (env : Env) (i : Nat) (stage : clstage) (prev_fd fd0 fd1 : Int) (t : FdTable) :
    Child :=
  match child_input env i stage prev_fd t with
  | none => ⟨t, ["child process open input file"], some (ChildEnd.exited EXIT_FAILURE)⟩
  | some t1 =>
    let t2 : FdTable := child_output env i stage fd1 t1
    let t3 : FdTable := if fd0 ≠ -1 then sys_close t2 fd0 else t2
    if env.execvp_ok i stage.argv then ⟨t3, [], some (ChildEnd.execed stage.argv)⟩
    else ⟨t3, ["execvp"], some (ChildEnd.exited EXIT_FAILURE)⟩

/-- The diagnostic for a `cd` inside a longer pipeline (source line 121). -/
def cd_in_pipeline : Event := Event.err "'cd' cannot be part of a pipeline\n"

/-- How one iteration of the stage loop ends in the interpreter: the loop goes on
with the next stage (`next`), the interpreter calls `exit` (`stop`), or the
interpreter stays for ever in a `wait` that does not return (`blocked`). -/
inductive Step
  | next (prev_fd : Int) (s : Shell)
  | stop (status : Nat) (s : Shell)
  | blocked (s : Shell)
  deriving DecidableEq

/-- One iteration of the loop of `run_command` (source lines 114-178), in the
interpreter process.  After a successful `fork` the interpreter calls `wait(NULL)`
(source line 170) before it closes its pipe ends: when that call does not return, the
iteration ends there, with the descriptors still open. -/
def stage_body (env : Env) (len i : Nat) (stage : clstage) (prev_fd : Int) (s : Shell) :
    List Event × Step :=
  if stage.argv0 = "cd" then
    if len = 1 then
      let r := handle_cd_command env stage.argv stage.argc s
      (Event.call_cd i :: r.1, Step.next prev_fd r.2)
    else
      ([cd_in_pipeline], Step.next prev_fd s)
  else if i < len - 1 ∧ env.pipe_ok i = false then
    ([Event.pipe i false, Event.perror "pipe", Event.terminate EXIT_FAILURE],
      Step.stop EXIT_FAILURE s)
  else
    let p : List Event × Int × Int × FdTable :=
      if i < len - 1 then ([Event.pipe i true], sys_pipe i s.fds)
      else ([], -1, STDOUT_FILENO, s.fds)
    let fd0 := p.2.1
    let fd1 := p.2.2.1
    let t := p.2.2.2
    if env.fork_ok i then
      let c := child env i stage prev_fd fd0 fd1 t
      if env.wait_returns i = false then
        (p.1 ++ [Event.fork i true, Event.spawn i c, Event.wait],
          Step.blocked { s with fds := t })
      else
        let e1 : List Event := if prev_fd ≠ STDIN_FILENO then [Event.close prev_fd] else []
        let t1 : FdTable := if prev_fd ≠ STDIN_FILENO then sys_close t prev_fd else t
        let e2 : List Event := if fd1 ≠ STDOUT_FILENO then [Event.close fd1] else []
        let t2 : FdTable := if fd1 ≠ STDOUT_FILENO then sys_close t1 fd1 else t1
        (p.1 ++ [Event.fork i true, Event.spawn i c, Event.wait] ++ e1 ++ e2,
          Step.next fd0 { s with fds := t2 })
    else
      (p.1 ++ [Event.fork i false, Event.perror "fork", Event.terminate EXIT_FAILURE],
        Step.stop EXIT_FAILURE { s with fds := t })

/-- The loop `for (i = 0; i < cl->length; i++)` of `run_command`, from index `i`
over the stages still to be run. -/
def stage_loop (env : Env) (len : Nat) : Nat → List clstage → Int → Shell → Run
  | _, [], _, s => ⟨s, [], none, false⟩
  | i, st :: rest, prev_fd, s =>
    match stage_body env len i st prev_fd s with
    | (evs, Step.next p s1) =>
      let r := stage_loop env len (i + 1) rest p s1
      ⟨r.shell, evs ++ r.trace, r.exit, r.blocked⟩
    | (evs, Step.stop status s1) => ⟨s1, evs, some status, false⟩
    | (evs, Step.blocked s1) => ⟨s1, evs, none, true⟩

/-- The diagnostics of the `switch (clerror)` of `run_command` (source lines 76-100). -/
def parse_diag : ClError → List Event
  | ClError.E_NONE => []
  | ClError.E_NULL => [Event.err "Error: Invalid null command.\n"]
  | ClError.E_EMPTY => []
  | ClError.E_BADIN => [Event.err "Error: Ambiguous input redirection.\n"]
  | ClError.E_BADOUT => [Event.err "Error: Ambiguous output redirection.\n"]
  | ClError.E_BADSTR => [Event.err "Error: Unterminated string detected.\n"]
  | ClError.E_PARSE => [Event.err "Error: Generic parse error.\n"]
  | ClError.other _ => [Event.err "Error: Unknown parsing error.\n"]

/-- The function `run_command(cmd)` (source lines 73-183). -/
def run_command (env : Env) (cmd : String) (s : Shell) : Run :=
  match env.crack_pipeline cmd with
  | (none, e) => ⟨s, parse_diag e, none, false⟩
  | (some cl, _) =>
    let r := stage_loop env cl.length 0 cl.stage STDIN_FILENO s
    match r.exit with
    | none =>
      if r.blocked then ⟨r.shell, r.trace, none, true⟩
      else ⟨r.shell, r.trace ++ [Event.free_pipeline], none, false⟩
    | some status => ⟨r.shell, r.trace, some status, false⟩

/-- Standard input of the process of stage `i` in the words of the specification:
the input-redirection file, opened read-only, if a path is present; otherwise the
read end of the pipe of stage `i - 1` if `i > 0`; otherwise what the interpreter
has as standard input (`own`). -/
def spec_stdin (own : Option Obj) (i : Nat) (st : clstage) : Option Obj :=
  match st.inname with
  | some p => some (Obj.file p OFlags.O_RDONLY 0)
  | none => if 0 < i then some (Obj.pipe_read (i - 1)) else own

/-- Standard output of the process of stage `i` in the words of the specification:
the output-redirection file, opened create/truncate with mode 0666, if a path is
present; otherwise the write end of the pipe of stage `i` if the stage is not the
last; otherwise what the interpreter has as standard output (`own`). -/
def spec_stdout (own : Option Obj) (len i : Nat) (st : clstage) : Option Obj :=
  match st.outname with
  | some p => some (Obj.file p OFlags.O_WRONLY_CREAT_TRUNC 0o666)
  | none => if i + 1 < len then some (Obj.pipe_write i) else own

/-- Loop invariant of `run_command` on a pipeline without `cd` when iteration `k`
starts: descriptors 0 and 1 of the interpreter still refer to `a0` and `a1`, and
`prev_fd` is `STDIN_FILENO` for the first stage and otherwise an open descriptor,
other than 0 and 1, for the read end of the pipe of stage `k - 1`. -/
def Wired (a0 a1 : Obj) (k : Nat) (prev_fd : Int) (t : FdTable) : Prop :=
  look t 0 = some a0 ∧ look t 1 = some a1 ∧
    (if k = 0 then prev_fd = STDIN_FILENO
     else 2 ≤ prev_fd ∧ look t prev_fd.toNat = some (Obj.pipe_read (k - 1)))

instance (a0 a1 : Obj) (k : Nat) (prev_fd : Int) (t : FdTable) :
    Decidable (Wired a0 a1 k prev_fd t) := by
  unfold Wired
  infer_instance

/-- The calls the interpreter makes for stage `i` of a pipeline of `len` stages, when
the stage is not `cd`, all succeed and return: `pipe` (made when the stage is not the
last), `fork` and `wait`; the loop then goes on to the next stage. -/
def Env.passes (env : Env) (len i : Nat) : Prop :=
  (i < len - 1 → env.pipe_ok i = true) ∧ env.fork_ok i = true ∧ env.wait_returns i = true

/-- The `pipe` call made for stage `i` of a pipeline of `len` stages (made when the
stage is not the last) fails, or the `fork` call for the stage fails. -/
def Env.fatal (env : Env) (len i : Nat) : Prop :=
  (i < len - 1 ∧ env.pipe_ok i = false) ∨ env.fork_ok i = false

/-- The `pipe` and `fork` calls for stage `i` of a pipeline of `len` stages succeed
and the `wait` for the child does not return. -/
def Env.stuck (env : Env) (len i : Nat) : Prop :=
  (i < len - 1 → env.pipe_ok i = true) ∧ env.fork_ok i = true ∧ env.wait_returns i = false

/-- The loop over the stages `rest`, which start at index `i` of a pipeline of `len`
stages, comes to a stage that is not `cd` and whose index satisfies `Q`: the calls
for every stage before it that is not `cd` succeed and return. -/
def Env.comes_to (env : Env) (len : Nat) (Q : Nat → Prop) (i : Nat) (rest : List clstage) :
    Prop :=
  ∃ k st, rest.get? k = some st ∧ st.argv0 ≠ "cd" ∧ Q (i + k) ∧
    ∀ j stj, j < k → rest.get? j = some stj → stj.argv0 ≠ "cd" → env.passes len (i + j)

/-! ## `process_input` and `main` -/

/-- One answer of `readLongString(input)`: the line (or `NULL`), the value left in
`errno`, whether the SIGINT handler ran during the call, and the end-of-file and
error indicators of the stream after the call. -/
structure ReadResult where
  line : Option String
  errno : Nat
  sigint : Bool
  feof : Bool
  ferror : Bool
  deriving DecidableEq

/-- The prompt condition `isatty(STDIN_FILENO) && isatty(STDOUT_FILENO) && !batch`. -/
def interactive (env : Env) (s : Shell) : Bool :=
  env.isatty_stdin && env.isatty_stdout && !s.batch

/-- The loop of `process_input(input)` (source lines 45-71).  `pending` lists the
answers of the reads still to come (a read after the last one finds the end of the
input), `feof` and `ferror` are the indicators of the stream, `n` counts the reads
made so far and selects the environment of that iteration. -/
def process_input (envs : Nat → Env) : Nat → List ReadResult → Bool → Bool → Shell → Run
  | _, [], feof, ferror, s =>
    if feof || ferror then ⟨s, [], none, false⟩ else ⟨s, [Event.read], none, false⟩
  | n, r :: rest, feof, ferror, s =>
    if feof || ferror then ⟨s, [], none, false⟩
    else
      let s1 : Shell := { s with sigint_received := s.sigint_received || r.sigint }
      match r.line with
      | none =>
        if r.errno = EINTR ∧ s1.sigint_received = true then
          let e : List Event :=
            if interactive (envs n) s1 then [Event.prompt "\n8-P "] else []
          let k := process_input envs (n + 1) rest r.feof r.ferror
            { s1 with sigint_received := false }
          ⟨k.shell, Event.read :: e ++ k.trace, k.exit, k.blocked⟩
        else if r.feof = false then
          ⟨s1, [Event.read, Event.perror "readLongString"], none, false⟩
        else ⟨s1, [Event.read], none, false⟩
      | some line =>
        let c := run_command (envs n) line s1
        match c.exit with
        | some status => ⟨c.shell, Event.read :: c.trace, some status, false⟩
        | none =>
          if c.blocked then ⟨c.shell, Event.read :: c.trace, none, true⟩
          else
            let e : List Event :=
              if interactive (envs n) c.shell then [Event.prompt "8-P "] else []
            let k := process_input envs (n + 1) rest r.feof r.ferror c.shell
            ⟨k.shell, Event.read :: c.trace ++ e ++ k.trace, k.exit, k.blocked⟩

/-- What `main` is started with: its argument vector, the descriptor table and
working directory it inherits, the answers of `sigaction` and `fopen`, and the
answers of the reads of the input. -/
structure Boot where
  argv : List String
  fds : FdTable
  cwd : String
  sigaction_ok : Bool
  fopen_ok : Bool
  reads : List ReadResult

/-- The function `main(argc, argv)` (source lines 186-219); the `exit` field of the
result is the exit status of the program (`none` when it stays blocked in a `wait`). -/
def main (envs : Nat → Env) (b : Boot) : Run :=
  let s0 : Shell := ⟨b.fds, b.cwd, false, false⟩
  if b.sigaction_ok = false then
    ⟨s0, [Event.perror "sigaction", Event.terminate EXIT_FAILURE], some EXIT_FAILURE, false⟩
  else if b.argv.length = 1 then
    let e : List Event := if interactive (envs 0) s0 then [Event.prompt "8-P "] else []
    let r := process_input envs 0 b.reads false false s0
    match r.exit with
    | some status => ⟨r.shell, e ++ r.trace, some status, false⟩
    | none =>
      if r.blocked then ⟨r.shell, e ++ r.trace, none, true⟩
      else ⟨r.shell, e ++ r.trace, some 0, false⟩
  else if b.argv.length = 2 then
    let s1 : Shell := { s0 with batch := true }
    let path := (b.argv.get? 1).getD ""
    let o := sys_open b.fopen_ok path OFlags.O_RDONLY 0 s1.fds
    if o.1 = -1 then
      ⟨s1, [Event.fopen path false, Event.perror "fopen", Event.terminate EXIT_FAILURE],
        some EXIT_FAILURE, false⟩
    else
      let r := process_input envs 0 b.reads false false { s1 with fds := o.2 }
      match r.exit with
      | some status => ⟨r.shell, Event.fopen path true :: r.trace, some status, false⟩
      | none =>
        if r.blocked then ⟨r.shell, Event.fopen path true :: r.trace, none, true⟩
        else
          ⟨{ r.shell with fds := sys_close r.shell.fds o.1 },
            Event.fopen path true :: r.trace ++ [Event.close o.1], some 0, false⟩
  else
    ⟨s0, [Event.err ("Usage: " ++ (b.argv.get? 0).getD "" ++ " [file]\n"),
      Event.terminate EXIT_FAILURE], some EXIT_FAILURE, false⟩

/-! ## Sample inputs -/

/-- Environment in which every system call succeeds and the parser splits at `|`
the sample lines used below. -/
def env_ok : Env where
  getenv_HOME := some "/home/u"
  getpwuid := some (some "/home/u")
  chdir := fun _ d => some d
  pipe_ok := fun _ => true
  fork_ok := fun _ => true
  open_ok := fun _ _ _ => true
  execvp_ok := fun _ _ => true
  wait_returns := fun _ => true
  isatty_stdin := false
  isatty_stdout := false
  crack_pipeline := fun cmd =>
    if cmd = "ls | wc" then
      (some ⟨[⟨"ls", [], none, none⟩, ⟨"wc", [], none, none⟩]⟩, ClError.E_NONE)
    else if cmd = "ls | cd" then
      (some ⟨[⟨"ls", [], none, none⟩, ⟨"cd", [], none, none⟩]⟩, ClError.E_NONE)
    else if cmd = "sort < in | uniq > out" then
      (some ⟨[⟨"sort", [], some "in", none⟩, ⟨"uniq", [], none, some "out"⟩]⟩, ClError.E_NONE)
    else if cmd = "ls > out | wc" then
      (some ⟨[⟨"ls", [], none, some "out"⟩, ⟨"wc", [], none, none⟩]⟩, ClError.E_NONE)
    else if cmd = "cd /tmp" then
      (some ⟨[⟨"cd", ["/tmp"], none, none⟩]⟩, ClError.E_NONE)
    else if cmd = "seq 1 50000 | wc -l" then
      (some ⟨[⟨"seq", ["1", "50000"], none, none⟩, ⟨"wc", ["-l"], none, none⟩]⟩, ClError.E_NONE)
    else if cmd = "nosuchcmd | seq 1 50000 | wc -l" then
      (some ⟨[⟨"nosuchcmd", [], none, none⟩, ⟨"seq", ["1", "50000"], none, none⟩,
        ⟨"wc", ["-l"], none, none⟩]⟩, ClError.E_NONE)
    else (none, ClError.E_EMPTY)

/-- Environment like `env_ok` in which `chdir`, every `open` and `execvp` fail. -/
def env_fail : Env :=
  { env_ok with chdir := fun _ _ => none, open_ok := fun _ _ _ => false,
                execvp_ok := fun _ _ => false }

/-- Environment like `env_ok` in which the child of stage 0 never ends, as `seq` in
`seq 1 50000 | wc -l`: its output exceeds what a pipe holds, the interpreter keeps
the read end open and has not forked the reader, so the child stays blocked in
`write` and the `wait` for it does not return. -/
def env_stuck : Env := { env_ok with wait_returns := fun i => decide (i ≠ 0) }

/-- Environment like `env_ok` in which `execvp` fails in the child of stage 0, which
then exits, and the child of stage 1 never ends, as in
`nosuchcmd | seq 1 50000 | wc -l`. -/
def env_stuck_after_exec : Env :=
  { env_ok with execvp_ok := fun i _ => decide (i ≠ 0), wait_returns := fun i => decide (i ≠ 1) }

/-- Environment like `env_ok` in which the `fork` for stage 1 fails. -/
def env_nofork : Env := { env_ok with fork_ok := fun i => decide (i ≠ 1) }

/-- Environment like `env_ok` in which no file can be opened for writing. -/
def env_noout : Env :=
  { env_ok with open_ok := fun _ _ f => decide (f = OFlags.O_RDONLY) }

/-- Environment whose parser rejects every line as unterminated. -/
def env_badstr : Env := { env_ok with crack_pipeline := fun _ => (none, ClError.E_BADSTR) }

/-- A read that fails with `EINTR` while the SIGINT handler runs and leaves both
indicators of the stream clear. -/
def read_interrupted_clear : ReadResult := ⟨none, EINTR, true, false, false⟩

/-- A read that finds the end of the input. -/
def read_eof : ReadResult := ⟨none, 0, false, true, false⟩

/-- A read that returns the line `ls | wc`. -/
def read_ls_wc : ReadResult := ⟨some "ls | wc", 0, false, false, false⟩

/-- Interpreter state with the three standard descriptors open. -/
def shell0 : Shell :=
  ⟨[some (Obj.inherited 0), some (Obj.inherited 1), some (Obj.inherited 2)], "/", false, false⟩

/-- Whether a value of `clerror` is one of the errors that get a diagnostic: every
value but `E_NONE` and `E_EMPTY`. -/
def ClError.reported : ClError → Bool
  | ClError.E_NONE => false
  | ClError.E_EMPTY => false
  | _ => true

/-- The case of the `switch (clerror)` a value of `clerror` selects; all values
without a case of their own select `default`. -/
def ClError.case : ClError → Nat
  | ClError.E_NONE => 0
  | ClError.E_NULL => 1
  | ClError.E_EMPTY => 2
  | ClError.E_BADIN => 3
  | ClError.E_BADOUT => 4
  | ClError.E_BADSTR => 5
  | ClError.E_PARSE => 6
  | ClError.other _ => 7

/-! ## Classifying events -/

/-- Whether an event is a call of `pipe`. -/
def Event.is_pipe : Event → Bool
  | Event.pipe _ _ => true
  | _ => false

/-- Whether an event is a call of `fork`. -/
def Event.is_fork : Event → Bool
  | Event.fork _ _ => true
  | _ => false

/-- Whether an event is a call of `close`. -/
def Event.is_close : Event → Bool
  | Event.close _ => true
  | _ => false

/-- Whether an event is the call of `pipe` made for stage `j`. -/
def Event.is_pipe_of (j : Nat) : Event → Bool
  | Event.pipe i _ => i = j
  | _ => false

/-- Whether an event is the call of `fork` made for stage `j`. -/
def Event.is_fork_of (j : Nat) : Event → Bool
  | Event.fork i _ => i = j
  | _ => false

/-- Whether an event is the process spawned for stage `j`. -/
def Event.is_spawn_of (j : Nat) : Event → Bool
  | Event.spawn i _ => i = j
  | _ => false

/-- Whether an event is a `pipe` call, a `fork` call or a spawned process of stage `j`. -/
def Event.works_for (j : Nat) : Event → Bool
  | Event.pipe i _ => i = j
  | Event.fork i _ => i = j
  | Event.spawn i _ => i = j
  | _ => false


/-- Whether an event belongs to the builtin: the call of `handle_cd_command` or a
`chdir` made by it. -/
def Event.is_builtin : Event → Bool
  | Event.call_cd _ => true
  | Event.chdir _ _ => true
  | _ => false

/-- Whether an event is a diagnostic on standard error. -/
def Event.is_diag : Event → Bool
  | Event.err _ => true
  | Event.perror _ => true
  | _ => false

/-- Whether an event is a `pipe` or `fork` call that failed. -/
def Event.is_failed_call : Event → Bool
  | Event.pipe _ false => true
  | Event.fork _ false => true
  | _ => false

/-- The interpreter state at the end of a loop iteration. -/
def Step.shell : Step → Shell
  | Step.next _ s => s
  | Step.stop _ s => s
  | Step.blocked s => s

/-! ## Children of the interpreter -/

/-- The children of the interpreter that have been forked and not yet waited for,
after a run of events, starting from the children `l`: a successful `fork` for stage
`i` adds child `i`, a call of `wait` takes one child away (in a run that stays
blocked the last `wait` is the call that does not return). -/
def unreaped : List Nat → List Event → List Nat
  | l, [] => l
  | l, Event.fork i true :: es => unreaped (l ++ [i]) es
  | l, Event.wait :: es => unreaped l.tail es
  | l, _ :: es => unreaped l es

/-- Where the interpreter stands with respect to its last `fork`: no child exists
(`idle`), the child of stage `i` has just been forked (`forked i`), or that child
runs while the interpreter is about to wait (`running i`). -/
inductive Reap
  | idle
  | forked (i : Nat)
  | running (i : Nat)
  deriving DecidableEq

/-- The discipline "fork, then straight away wait": the state after one event, or
`none` when the event breaks the discipline. -/
def reap_step : Reap → Event → Option Reap
  | Reap.idle, Event.fork i true => some (Reap.forked i)
  | Reap.idle, Event.wait => none
  | Reap.idle, Event.spawn _ _ => none
  | Reap.idle, _ => some Reap.idle
  | Reap.forked i, Event.spawn j _ => if i = j then some (Reap.running i) else none
  | Reap.forked _, _ => none
  | Reap.running _, Event.wait => some Reap.idle
  | Reap.running _, _ => none

/-- The discipline run over a list of events. -/
def reap_run : Reap → List Event → Option Reap
  | st, [] => some st
  | st, e :: es =>
    match reap_step st e with
    | some st1 => reap_run st1 es
    | none => none

/-- The un-reaped children in a state of the discipline. -/
def Reap.pending : Reap → List Nat
  | Reap.idle => []
  | Reap.forked i => [i]
  | Reap.running i => [i]

/-- Whether an event is neither a successful `fork`, nor a spawned process, nor a
`wait`. -/
def Event.is_plain : Event → Bool
  | Event.fork _ true => false
  | Event.spawn _ _ => false
  | Event.wait => false
  | _ => true

end Mush

/-! # mytar: the archive tool (src/mytar6.c)

A shallow embedding of `createArchive`, `listContents`, `extractArchive` and
`extractFile`.  Files are lists of bytes, a file offset is a natural number, `long`
values are integers kept in the 64-bit range; the answers of the operating system
and of the C library that the code branches on come from an environment record.
-/

namespace Mytar

/-! ## Constants and C arithmetic -/

/-- The macro `BLOCK_SIZE`, also `sizeof(struct ustar_header)`. -/
def BLOCK_SIZE : Nat := 512

/-- Exit status `EXIT_FAILURE`. -/
def EXIT_FAILURE : Nat := 1

/-- A value brought into the range of a 64-bit `long`. -/
def wrap_long (x : Int) : Int := (x + 2 ^ 63) % 2 ^ 64 - 2 ^ 63

/-- The operation `x & ~511` on a `long`: the low nine bits are cleared. -/
def clear_low9 (x : Int) : Int := x - x % 512

/-- The expression `(size + 511) & ~511` of `listContents` and `extractArchive`. -/
def skip_len (size : Int) : Int := clear_low9 (wrap_long (size + 511))

/-- The size of a member's data rounded up to whole blocks, as a number. -/
def roundup (s : Nat) : Nat := (s + 511) / 512 * 512

/-- The call `lseek(fd, off, SEEK_CUR)` at offset `pos`: the new offset; the call
fails and leaves the offset when the result would be negative or not an `off_t`. -/
def sys_lseek_cur (pos : Nat) (off : Int) : Nat :=
  if 0 ≤ (pos : Int) + off ∧ (pos : Int) + off < 2 ^ 63 then ((pos : Int) + off).toNat else pos

/-- The bytes a `read(fd, buf, count)` on a regular file delivers at offset `pos`. -/
def sys_read (file : List Nat) (pos count : Nat) : List Nat := (file.drop pos).take count

/-! ## Headers -/

/-- The C string that starts a list of bytes. -/
def cstr (bs : List Nat) : List Nat := bs.takeWhile (fun b => b ≠ 0)

/-- The test `strncmp(a, b, n) == 0`; bytes past the end of a list read as NUL. -/
def strncmp_eq : Nat → List Nat → List Nat → Bool
  | 0, _, _ => true
  | n + 1, a, b =>
    if a.headD 0 ≠ b.headD 0 then false
    else if a.headD 0 = 0 then true
    else strncmp_eq n a.tail b.tail

/-- The string literal `USTAR_MAGIC`, with its terminator. -/
def USTAR_MAGIC : List Nat := [117, 115, 116, 97, 114, 0]

/-- The macro `USTAR_MAGIC_LEN`. -/
def USTAR_MAGIC_LEN : Nat := 6

/-- The string literal `USTAR_VERSION`, with its terminator. -/
def USTAR_VERSION : List Nat := [48, 48, 0]

/-- The field `name` of a header block, as a pointer into the block. -/
def hdr_name (hdr : List Nat) : List Nat := hdr

/-- The field `size` of a header block, as a pointer into the block. -/
def hdr_size (hdr : List Nat) : List Nat := hdr.drop 124

/-- The field `magic` of a header block, as a pointer into the block. -/
def hdr_magic (hdr : List Nat) : List Nat := hdr.drop 257

/-- The field `version` of a header block, as a pointer into the block. -/
def hdr_version (hdr : List Nat) : List Nat := hdr.drop 263

/-- The function `checkMagicAndVersion` (source lines 281-286). -/
def checkMagicAndVersion (magic version : List Nat) (strict : Bool) : Bool :=
  if strict then
    strncmp_eq USTAR_MAGIC_LEN magic USTAR_MAGIC && strncmp_eq 2 version USTAR_VERSION
  else strncmp_eq USTAR_MAGIC_LEN magic USTAR_MAGIC

/-! ## Environment and events -/

/-- What `lstat` reports about a file. -/
structure Stat where
  st_mode : Nat
  st_uid : Nat
  st_gid : Nat
  st_size : Nat
  st_mtime : Int
  deriving DecidableEq

/-- Answers of the operating system and of the C library. -/
structure TarEnv where
  /-- Value that `sscanf(field, "%lo", &v)` leaves in `v`, from the bytes at `field`. -/
  sscanf_lo : List Nat → Int
  /-- Value of `strtol(field, NULL, 8)`, from the bytes at `field`. -/
  strtol_8 : List Nat → Int
  /-- Whether the archive can be opened (for reading, or created for writing). -/
  archive_open_ok : Bool
  /-- Whether a `read` of the archive at an offset fails. -/
  read_err : Nat → Bool
  /-- Whether `open(filePath, O_WRONLY | O_CREAT | O_TRUNC, mode)` succeeds. -/
  creat_ok : List Nat → Bool
  /-- Whether the `write` to the output file that starts at an offset of that file
  writes all it is given. -/
  out_write_ok : List Nat → Nat → Bool
  /-- Result of `lstat(path, &fileStat)`. -/
  lstat : List Nat → Option Stat
  /-- Content of the file `open(path, O_RDONLY)` gives, or failure. -/
  open_src : List Nat → Option (List Nat)
  /-- Whether the `write` of a header at an offset of the archive writes all of it. -/
  hdr_write_ok : Nat → Bool

/-- Observable actions of the archive tool. -/
inductive Ev
  | hdr_read (pos : Nat) (got : Nat)
  | data_read (pos : Nat) (got : Nat)
  | lseek (pos : Nat) (off : Int)
  | creat (path : List Nat) (mode : Int)
  | out_write (path : List Nat) (bytes : List Nat)
  | out_close (path : List Nat)
  | mkdir (path : List Nat)
  | symlink (target : List Nat) (path : List Nat)
  | print (text : String) (arg : List Nat)
  | print_verbose (hdr : List Nat)
  | err (msg : String)
  | perror (tag : String)
  | hdr_write (pos : Nat)
  | close
  | terminate (status : Nat)
  deriving DecidableEq

/-- How a piece of the tool's code ends: it goes on with the archive at an offset,
the program exits, or the code loops for ever. -/
inductive TarFlow
  | next (pos : Nat)
  | stop (status : Nat)
  | hang
  deriving DecidableEq

/-! ## `extractFile` and `extractArchive` -/

/-- The body of the loop of `listContents` (source lines 187-200) for the header
block `hdr`, with the archive now at offset `pos`. -/
def list_member (env : TarEnv) (strict verbose : Bool) (pos : Nat) (hdr : List Nat) :
    List Ev × TarFlow :=
  if checkMagicAndVersion (hdr_magic hdr) (hdr_version hdr) strict = false then
    ([Ev.err "Not a valid ustar archive\n", Ev.terminate EXIT_FAILURE], TarFlow.stop EXIT_FAILURE)
  else
    let e0 : Ev := if verbose then Ev.print_verbose hdr else Ev.print "" (cstr (hdr_name hdr))
    let size : Int := env.sscanf_lo (hdr_size hdr)
    ([e0, Ev.lseek pos (skip_len size)], TarFlow.next (sys_lseek_cur pos (skip_len size)))

/-- The loop of `listContents` (source lines 186-201) from offset `pos`, followed by
the `close`; `fuel` bounds the number of headers read, `none` when it runs out. -/
def listContents_loop (env : TarEnv) (archive : List Nat) (strict verbose : Bool) :
    Nat → Nat → Option (List Ev × TarFlow)
  | 0, _ => none
  | fuel + 1, pos =>
    let hdr := sys_read archive pos BLOCK_SIZE
    if env.read_err pos = true ∨ hdr.length ≠ BLOCK_SIZE then
      some ([Ev.hdr_read pos (if env.read_err pos then 0 else hdr.length), Ev.close],
        TarFlow.next (if env.read_err pos then pos else pos + hdr.length))
    else
      match list_member env strict verbose (pos + BLOCK_SIZE) hdr with
      | (evs, TarFlow.next p) =>
        match listContents_loop env archive strict verbose fuel p with
        | none => none
        | some (evs1, fl) => some (Ev.hdr_read pos BLOCK_SIZE :: evs ++ evs1, fl)
      | (evs, fl) => some (Ev.hdr_read pos BLOCK_SIZE :: evs, fl)

/-- The function `listContents` (source lines 178-204). -/
def listContents (env : TarEnv) (archive : List Nat) (strict verbose : Bool) (fuel : Nat) :
    Option (List Ev × TarFlow) :=
  if env.archive_open_ok = false then
    some ([Ev.perror "Failed to open tar file", Ev.terminate EXIT_FAILURE],
      TarFlow.stop EXIT_FAILURE)
  else listContents_loop env archive strict verbose fuel 0

/-! ## `createArchive` -/

end Mytar

namespace Mush

/-! ## Descriptor tables -/

theorem look_nil (m : Nat) : look [] m = none := by
  cases m <;> rfl

theorem look_put (t : FdTable) (n m : Nat) (o : Option Obj) :
    look (put t n o) m = if m = n then o else look t m := by
  induction n generalizing t m with
  | zero =>
    cases t <;> cases m <;> simp [put, look, look_nil]
  | succ n ih =>
    cases t <;> cases m <;> simp [put, look, ih, look_nil]

theorem look_lowest_free (t : FdTable) : look t (lowest_free t) = none := by
  induction t with
  | nil => rfl
  | cons x t ih => cases x <;> simp [lowest_free, look, ih]

theorem lowest_free_ne (t : FdTable) (n : Nat) (h : look t n ≠ none) : lowest_free t ≠ n := by
  intro hn
  rw [← hn, look_lowest_free] at h
  exact h rfl

theorem fd_look_nat (t : FdTable) (n : Nat) : fd_look t (n : Int) = look t n := by
  simp [fd_look]

theorem sys_close_nat (t : FdTable) (n : Nat) : sys_close t (n : Int) = put t n none := by
  simp [sys_close]

theorem sys_dup2_nat (t : FdTable) (a b : Nat) (o : Obj) (h : look t a = some o) :
    sys_dup2 t (a : Int) (b : Int) = put t b (some o) := by
  simp [sys_dup2, fd_look_nat, h]

/-! ## The stage loop: how many pipes and processes -/

theorem stage_body_spawn (env : Env) (len i : Nat) (st : clstage) (prev : Int) (s : Shell)
    (hcd : st.argv0 ≠ "cd") (hp : env.pipe_ok i = true) (hf : env.fork_ok i = true)
    (hw : env.wait_returns i = true) :
    ∃ c e p s1, stage_body env len i st prev s =
        ((if i < len - 1 then [Event.pipe i true] else []) ++
          [Event.fork i true, Event.spawn i c, Event.wait] ++ e, Step.next p s1) ∧
      ∀ x ∈ e, x.is_close = true := by
  unfold stage_body
  simp only [hcd, hp, hf, hw, if_false, if_true, and_false, Bool.true_eq_false]
  by_cases h : i < len - 1
  · simp only [h, if_true]
    refine ⟨_, _, _, _, rfl, ?_⟩
    intro x hx
    split_ifs at hx <;> simp at hx <;> (try rcases hx with hx | hx) <;> subst_vars <;> rfl
  · simp only [h, if_false]
    refine ⟨_, _, _, _, rfl, ?_⟩
    intro x hx
    split_ifs at hx <;> simp at hx <;> (try rcases hx with hx | hx) <;> subst_vars <;> rfl

theorem stage_body_blocked (env : Env) (len i : Nat) (st : clstage) (prev : Int) (s : Shell)
    (hcd : st.argv0 ≠ "cd") (hp : env.pipe_ok i = true) (hf : env.fork_ok i = true)
    (hw : env.wait_returns i = false) :
    ∃ c s1, stage_body env len i st prev s =
      ((if i < len - 1 then [Event.pipe i true] else []) ++
        [Event.fork i true, Event.spawn i c, Event.wait], Step.blocked s1) := by
  unfold stage_body
  simp only [hcd, hp, hf, hw, if_false, if_true, and_false, Bool.true_eq_false]
  by_cases h : i < len - 1
  · simp only [h, if_true]
    exact ⟨_, _, rfl⟩
  · simp only [h, if_false]
    exact ⟨_, _, rfl⟩

theorem countP_closes (p : Event → Bool) (e : List Event) (he : ∀ x ∈ e, x.is_close = true)
    (hp : ∀ x, x.is_close = true → p x = false) : e.countP p = 0 := by
  rw [List.countP_eq_zero]
  intro x hx
  simp [hp x (he x hx)]

theorem close_not_pipe (x : Event) (h : x.is_close = true) : x.is_pipe = false := by
  cases x <;> first | rfl | cases h

theorem close_not_fork (x : Event) (h : x.is_close = true) : x.is_fork = false := by
  cases x <;> first | rfl | cases h

theorem close_not_pipe_of (j : Nat) (x : Event) (h : x.is_close = true) :
    x.is_pipe_of j = false := by
  cases x <;> first | rfl | cases h

theorem close_not_fork_of (j : Nat) (x : Event) (h : x.is_close = true) :
    x.is_fork_of j = false := by
  cases x <;> first | rfl | cases h

theorem close_not_spawn_of (j : Nat) (x : Event) (h : x.is_close = true) :
    x.is_spawn_of j = false := by
  cases x <;> first | rfl | cases h

/-- Counts over the stage loop of a pipeline without `cd` whose `pipe` and `fork`
calls succeed, when the waits of the stages before `k` return and the wait of stage
`k` does not (`k = len`: every wait returns). -/
theorem stage_loop_counts (env : Env) (len k : Nat)
    (hp : ∀ i, env.pipe_ok i = true) (hf : ∀ i, env.fork_ok i = true)
    (hw : ∀ j, j < k → env.wait_returns j = true)
    (hwk : k < len → env.wait_returns k = false) :
    ∀ (rest : List clstage) (i : Nat) (prev : Int) (s : Shell),
      i + rest.length = len → i ≤ k → k ≤ len → (∀ st ∈ rest, st.argv0 ≠ "cd") →
      (stage_loop env len i rest prev s).exit = none ∧
      (stage_loop env len i rest prev s).blocked = decide (k < len) ∧
      (stage_loop env len i rest prev s).trace.countP Event.is_pipe =
        min (k + 1) (len - 1) - i ∧
      (stage_loop env len i rest prev s).trace.countP Event.is_fork = min (k + 1) len - i ∧
      ∀ j, (stage_loop env len i rest prev s).trace.countP (Event.is_fork_of j) =
            (if i ≤ j ∧ j < min (k + 1) len then 1 else 0) ∧
          (stage_loop env len i rest prev s).trace.countP (Event.is_pipe_of j) =
            (if i ≤ j ∧ j < min (k + 1) (len - 1) then 1 else 0) ∧
          (stage_loop env len i rest prev s).trace.countP (Event.is_spawn_of j) =
            (if i ≤ j ∧ j < min (k + 1) len then 1 else 0) := by
  intro rest
  induction rest with
  | nil =>
    intro i prev s hlen hik hkl _
    simp only [List.length_nil, Nat.add_zero] at hlen
    subst hlen
    have hk : k = i := by omega
    subst hk
    refine ⟨rfl, by simp [stage_loop], by simp [stage_loop], by simp [stage_loop], ?_⟩
    intro j
    simp only [stage_loop, List.countP_nil]
    refine ⟨?_, ?_, ?_⟩ <;> (split_ifs <;> omega)
  | cons st rest ih =>
    intro i prev s hlen hik hkl hcd
    simp only [List.length_cons] at hlen
    by_cases hlt : i < k
    · obtain ⟨c, e, p, s1, hb, he⟩ :=
        stage_body_spawn env len i st prev s (hcd st (List.mem_cons_self _ _)) (hp i) (hf i)
          (hw i hlt)
      obtain ⟨h1, hbl, h2, h3, h4⟩ := ih (i + 1) p s1 (by omega) (by omega) hkl
        (fun x hx => hcd x (List.mem_cons_of_mem _ hx))
      have e1 : e.countP Event.is_pipe = 0 := countP_closes _ e he close_not_pipe
      have e2 : e.countP Event.is_fork = 0 := countP_closes _ e he close_not_fork
      simp only [stage_loop, hb]
      refine ⟨h1, hbl, ?_, ?_, ?_⟩
      · simp only [List.countP_append, h2, e1]
        by_cases h : i < len - 1
        · simp only [h, if_true]
          simp [List.countP_cons, Event.is_pipe]
          omega
        · simp only [h, if_false]
          simp [List.countP_cons, Event.is_pipe]
          omega
      · simp only [List.countP_append, h3, e2]
        split_ifs <;> simp [List.countP_cons, Event.is_pipe, Event.is_fork] <;> omega
      · intro j
        obtain ⟨h5, h6, h7⟩ := h4 j
        have e3 : e.countP (Event.is_fork_of j) = 0 :=
          countP_closes _ e he (close_not_fork_of j)
        have e4 : e.countP (Event.is_pipe_of j) = 0 :=
          countP_closes _ e he (close_not_pipe_of j)
        have e5 : e.countP (Event.is_spawn_of j) = 0 :=
          countP_closes _ e he (close_not_spawn_of j)
        refine ⟨?_, ?_, ?_⟩
        · simp only [List.countP_append, h5, e3]
          split_ifs <;>
            (try simp [List.countP_cons, Event.is_fork_of, Event.is_pipe_of]) <;> omega
        · simp only [List.countP_append, h6, e4]
          split_ifs <;>
            (try simp [List.countP_cons, Event.is_fork_of, Event.is_pipe_of]) <;> omega
        · simp only [List.countP_append, h7, e5]
          split_ifs <;>
            (try simp [List.countP_cons, Event.is_spawn_of]) <;> omega
    · have hk : k = i := by omega
      subst hk
      have hkl1 : k < len := by omega
      obtain ⟨c, s1, hb⟩ :=
        stage_body_blocked env len k st prev s (hcd st (List.mem_cons_self _ _)) (hp k) (hf k)
          (hwk hkl1)
      simp only [stage_loop, hb]
      refine ⟨trivial, by simp [hkl1], ?_, ?_, ?_⟩
      · split_ifs <;> simp [List.countP_cons, Event.is_pipe] <;> omega
      · split_ifs <;> simp [List.countP_cons, Event.is_pipe, Event.is_fork] <;> omega
      · intro j
        refine ⟨?_, ?_, ?_⟩ <;>
        · split_ifs <;>
            (try simp [List.countP_cons, Event.is_fork_of, Event.is_pipe_of,
              Event.is_spawn_of]) <;> omega

theorem run_command_parsed (env : Env) (cmd : String) (s : Shell) (cl : pipeline) (e : ClError)
    (hparse : env.crack_pipeline cmd = (some cl, e)) :
    run_command env cmd s =
      match (stage_loop env cl.length 0 cl.stage STDIN_FILENO s).exit with
      | none =>
        if (stage_loop env cl.length 0 cl.stage STDIN_FILENO s).blocked = true then
          ⟨(stage_loop env cl.length 0 cl.stage STDIN_FILENO s).shell,
            (stage_loop env cl.length 0 cl.stage STDIN_FILENO s).trace, none, true⟩
        else
          ⟨(stage_loop env cl.length 0 cl.stage STDIN_FILENO s).shell,
            (stage_loop env cl.length 0 cl.stage STDIN_FILENO s).trace ++ [Event.free_pipeline],
            none, false⟩
      | some status => ⟨(stage_loop env cl.length 0 cl.stage STDIN_FILENO s).shell,
          (stage_loop env cl.length 0 cl.stage STDIN_FILENO s).trace, some status, false⟩ := by
  simp only [run_command, hparse]

/-- C1 as stated fails: on the parsed two-stage line `seq 1 50000 | wc -l`, without
`cd`, with every `pipe` and `fork` call succeeding, the `wait` for the first child
does not return; `fork` has then been called once, not twice, and `run_command`
never returns. -/
theorem run_command_pipe_fork_count_stuck :
    env_stuck.crack_pipeline "seq 1 50000 | wc -l" =
      (some ⟨[⟨"seq", ["1", "50000"], none, none⟩, ⟨"wc", ["-l"], none, none⟩]⟩,
        ClError.E_NONE) ∧
    (∀ i, env_stuck.pipe_ok i = true) ∧ (∀ i, env_stuck.fork_ok i = true) ∧
    (run_command env_stuck "seq 1 50000 | wc -l" shell0).trace.countP Event.is_fork = 1 ∧
    (run_command env_stuck "seq 1 50000 | wc -l" shell0).trace.countP Event.is_pipe = 1 ∧
    (run_command env_stuck "seq 1 50000 | wc -l" shell0).exit = none ∧
    (run_command env_stuck "seq 1 50000 | wc -l" shell0).blocked = true :=
  ⟨rfl, fun _ => rfl, fun _ => rfl, by decide, by decide, by decide, by decide⟩

/-- C1, amended: for a parsed pipeline of N >= 1 stages none of which is `cd`, when
no `pipe` and no `fork` call fails and every `wait` returns, `run_command` returns to
its caller having called `pipe` exactly N-1 times and `fork` exactly N times: `fork`
once for every stage and `pipe` once for every stage but the last.  When the `wait`
for stage `k` is the first that does not return, `run_command` stays blocked in it,
having called `fork` once for each of the stages 0..k (`k + 1` times) and `pipe` once
for each of these stages that is not the last. -/
theorem run_command_pipe_fork_count (env : Env) (cmd : String) (s : Shell) (cl : pipeline)
    (e : ClError) (hparse : env.crack_pipeline cmd = (some cl, e)) (_hlen : 1 ≤ cl.length)
    (hcd : ∀ st ∈ cl.stage, st.argv0 ≠ "cd")
    (hp : ∀ i, env.pipe_ok i = true) (hf : ∀ i, env.fork_ok i = true) :
    ((∀ k, k < cl.length → env.wait_returns k = true) →
      (run_command env cmd s).exit = none ∧
      (run_command env cmd s).blocked = false ∧
      (run_command env cmd s).trace.countP Event.is_pipe = cl.length - 1 ∧
      (run_command env cmd s).trace.countP Event.is_fork = cl.length ∧
      (∀ j, j < cl.length →
        (run_command env cmd s).trace.countP (Event.is_fork_of j) = 1) ∧
      (∀ j, j < cl.length - 1 →
        (run_command env cmd s).trace.countP (Event.is_pipe_of j) = 1)) ∧
    (∀ k, k < cl.length → (∀ j, j < k → env.wait_returns j = true) →
      env.wait_returns k = false →
      (run_command env cmd s).exit = none ∧
      (run_command env cmd s).blocked = true ∧
      (run_command env cmd s).trace.countP Event.is_pipe = min (k + 1) (cl.length - 1) ∧
      (run_command env cmd s).trace.countP Event.is_fork = k + 1 ∧
      (∀ j, (run_command env cmd s).trace.countP (Event.is_fork_of j) =
        if j ≤ k then 1 else 0) ∧
      (∀ j, (run_command env cmd s).trace.countP (Event.is_pipe_of j) =
        if j ≤ k ∧ j < cl.length - 1 then 1 else 0)) := by
  constructor
  · intro hw
    obtain ⟨h1, hb, h2, h3, h4⟩ := stage_loop_counts env cl.length cl.length hp hf hw
      (fun h => absurd h (Nat.lt_irrefl _)) cl.stage 0 STDIN_FILENO s
      (by simp [pipeline.length]) (Nat.zero_le _) (Nat.le_refl _) hcd
    have hb1 : (stage_loop env cl.length 0 cl.stage STDIN_FILENO s).blocked = false := by
      rw [hb]
      simp
    rw [run_command_parsed env cmd s cl e hparse, h1]
    simp only [hb1, Bool.false_eq_true, if_false, List.countP_append, h2, h3]
    refine ⟨trivial, trivial, ?_, ?_, ?_, ?_⟩
    · simp [Event.is_pipe]
      omega
    · simp [Event.is_fork]
    · intro j hj
      rw [(h4 j).1]
      have : j < min (cl.length + 1) cl.length := by omega
      rw [if_pos ⟨Nat.zero_le _, this⟩]
      rfl
    · intro j hj
      rw [(h4 j).2.1]
      have : j < min (cl.length + 1) (cl.length - 1) := by omega
      rw [if_pos ⟨Nat.zero_le _, this⟩]
      rfl
  · intro k hk hw hwk
    obtain ⟨h1, hb, h2, h3, h4⟩ := stage_loop_counts env cl.length k hp hf hw
      (fun _ => hwk) cl.stage 0 STDIN_FILENO s
      (by simp [pipeline.length]) (Nat.zero_le _) (Nat.le_of_lt hk) hcd
    have hb1 : (stage_loop env cl.length 0 cl.stage STDIN_FILENO s).blocked = true := by
      rw [hb]
      simp [hk]
    rw [run_command_parsed env cmd s cl e hparse, h1]
    simp only [hb1, if_true, h2, h3]
    refine ⟨trivial, trivial, by omega, by omega, ?_, ?_⟩
    · intro j
      rw [(h4 j).1]
      have : (0 ≤ j ∧ j < min (k + 1) cl.length) ↔ j ≤ k := by omega
      simp only [this]
    · intro j
      rw [(h4 j).2.1]
      have : (0 ≤ j ∧ j < min (k + 1) (cl.length - 1)) ↔ (j ≤ k ∧ j < cl.length - 1) := by
        omega
      simp only [this]

/-- Witness of C1 (amended): the two-stage line `ls | wc` when every `wait` returns,
and the line `seq 1 50000 | wc -l` when the first does not. -/
theorem run_command_pipe_fork_count_witness :
    ((run_command env_ok "ls | wc" shell0).exit = none ∧
      (run_command env_ok "ls | wc" shell0).blocked = false ∧
      (run_command env_ok "ls | wc" shell0).trace.countP Event.is_pipe = 2 - 1 ∧
      (run_command env_ok "ls | wc" shell0).trace.countP Event.is_fork = 2) ∧
    ((run_command env_stuck "seq 1 50000 | wc -l" shell0).blocked = true ∧
      (run_command env_stuck "seq 1 50000 | wc -l" shell0).trace.countP Event.is_pipe =
        min (0 + 1) (2 - 1) ∧
      (run_command env_stuck "seq 1 50000 | wc -l" shell0).trace.countP Event.is_fork =
        0 + 1) :=
  have h1 := (run_command_pipe_fork_count env_ok "ls | wc" shell0
    ⟨[⟨"ls", [], none, none⟩, ⟨"wc", [], none, none⟩]⟩ ClError.E_NONE rfl (by decide)
    (by decide) (fun _ => rfl) (fun _ => rfl)).1 (fun _ _ => rfl)
  have h2 := (run_command_pipe_fork_count env_stuck "seq 1 50000 | wc -l" shell0
    ⟨[⟨"seq", ["1", "50000"], none, none⟩, ⟨"wc", ["-l"], none, none⟩]⟩ ClError.E_NONE rfl
    (by decide) (by decide) (fun _ => rfl) (fun _ => rfl)).2 0 (by decide)
    (fun _ hj => absurd hj (Nat.not_lt_zero _)) rfl
  ⟨⟨h1.1, h1.2.1, h1.2.2.1, h1.2.2.2.1⟩, h2.2.1, h2.2.2.1, h2.2.2.2.1⟩

/-! ## The `cd` stage -/

theorem stage_body_cd_pipeline (env : Env) (len i : Nat) (st : clstage) (prev : Int) (s : Shell)
    (hcd : st.argv0 = "cd") (hlen : len ≠ 1) :
    stage_body env len i st prev s =
      ([cd_in_pipeline], Step.next prev s) := by
  simp only [stage_body, hcd, hlen, if_true, if_false]

theorem stage_body_cd_sole (env : Env) (i : Nat) (st : clstage) (prev : Int) (s : Shell)
    (hcd : st.argv0 = "cd") :
    stage_body env 1 i st prev s =
      (Event.call_cd i :: (handle_cd_command env st.argv st.argc s).1,
        Step.next prev (handle_cd_command env st.argv st.argc s).2) := by
  simp only [stage_body, hcd, if_true]

theorem handle_cd_no_work (env : Env) (argv : List String) (argc : Nat) (s : Shell) (j : Nat) :
    ∀ x ∈ (handle_cd_command env argv argc s).1, x.works_for j = false := by
  unfold handle_cd_command
  cases cd_dir env argv argc with
  | none => simp [Event.works_for]
  | some d => cases h : env.chdir s.cwd d <;> simp [Event.works_for, h]

theorem stage_loop_cons (env : Env) (len i : Nat) (st : clstage) (rest : List clstage)
    (prev : Int) (s : Shell) :
    stage_loop env len i (st :: rest) prev s =
      match stage_body env len i st prev s with
      | (evs, Step.next p s1) =>
        ⟨(stage_loop env len (i + 1) rest p s1).shell,
          evs ++ (stage_loop env len (i + 1) rest p s1).trace,
          (stage_loop env len (i + 1) rest p s1).exit,
          (stage_loop env len (i + 1) rest p s1).blocked⟩
      | (evs, Step.stop status s1) => ⟨s1, evs, some status, false⟩
      | (evs, Step.blocked s1) => ⟨s1, evs, none, true⟩ := rfl

theorem run_command_shell (env : Env) (cmd : String) (s : Shell) (cl : pipeline) (e : ClError)
    (hparse : env.crack_pipeline cmd = (some cl, e)) :
    (run_command env cmd s).shell = (stage_loop env cl.length 0 cl.stage STDIN_FILENO s).shell := by
  rw [run_command_parsed env cmd s cl e hparse]
  cases (stage_loop env cl.length 0 cl.stage STDIN_FILENO s).exit with
  | some status => rfl
  | none => cases (stage_loop env cl.length 0 cl.stage STDIN_FILENO s).blocked <;> rfl

theorem run_command_exit (env : Env) (cmd : String) (s : Shell) (cl : pipeline) (e : ClError)
    (hparse : env.crack_pipeline cmd = (some cl, e)) :
    (run_command env cmd s).exit = (stage_loop env cl.length 0 cl.stage STDIN_FILENO s).exit := by
  rw [run_command_parsed env cmd s cl e hparse]
  cases (stage_loop env cl.length 0 cl.stage STDIN_FILENO s).exit with
  | some status => rfl
  | none => cases (stage_loop env cl.length 0 cl.stage STDIN_FILENO s).blocked <;> rfl

theorem run_command_mem (env : Env) (cmd : String) (s : Shell) (cl : pipeline) (e : ClError)
    (hparse : env.crack_pipeline cmd = (some cl, e)) (x : Event) :
    x ∈ (run_command env cmd s).trace ↔
      x ∈ (stage_loop env cl.length 0 cl.stage STDIN_FILENO s).trace ∨
        ((stage_loop env cl.length 0 cl.stage STDIN_FILENO s).exit = none ∧
          (stage_loop env cl.length 0 cl.stage STDIN_FILENO s).blocked = false ∧
          x = Event.free_pipeline) := by
  rw [run_command_parsed env cmd s cl e hparse]
  cases h : (stage_loop env cl.length 0 cl.stage STDIN_FILENO s).exit with
  | some status => simp
  | none =>
    cases hb : (stage_loop env cl.length 0 cl.stage STDIN_FILENO s).blocked <;> simp

theorem cd_dir_eq_spec (env : Env) (argv : List String) :
    cd_dir env argv argv.length = spec_cd_target env argv := by
  unfold cd_dir spec_cd_target
  match argv with
  | [] => cases env.getenv_HOME <;> rcases env.getpwuid with _ | _ | _ <;> simp
  | [_] => cases env.getenv_HOME <;> rcases env.getpwuid with _ | _ | _ <;> simp
  | _ :: d :: rest => simp

/-- C3: `handle_cd_command` on an argument list settles on the directory the
specification names (first argument, else `HOME`, else the home directory of the
user database, arguments after the first being ignored) and makes one `chdir` on it;
when nothing resolves it makes no `chdir`, prints "unable to determine home
directory" and changes nothing; when the `chdir` fails it reports the error with
`perror` and changes nothing. -/
theorem handle_cd_command_spec (env : Env) (argv : List String) (s : Shell) :
    cd_dir env argv argv.length = spec_cd_target env argv ∧
    handle_cd_command env argv argv.length s =
      (match spec_cd_target env argv with
      | none => ([Event.err "unable to determine home directory\n"], s)
      | some d =>
        match env.chdir s.cwd d with
        | some cwd1 => ([Event.chdir d true], { s with cwd := cwd1 })
        | none => ([Event.chdir d false, Event.perror "chdir"], s)) ∧
    (∀ a d rest, spec_cd_target env (a :: d :: rest) = some d) ∧
    (∀ a, spec_cd_target env [a] = spec_cd_target env []) ∧
    (∀ h, env.getenv_HOME = some h → spec_cd_target env [] = some h) ∧
    (env.getenv_HOME = none → spec_cd_target env [] = env.getpwuid.join) := by
  refine ⟨cd_dir_eq_spec env argv, ?_, fun _ _ _ => rfl, fun _ => rfl, ?_, ?_⟩
  · unfold handle_cd_command
    rw [cd_dir_eq_spec]
    cases spec_cd_target env argv <;> rfl
  · intro h hh
    simp [spec_cd_target, hh]
  · intro hh
    simp only [spec_cd_target, hh]
    rcases env.getpwuid with _ | _ | _ <;> rfl

/-! ## Parse errors -/

theorem parse_diag_cases (e : ClError) :
    (e.reported = false → parse_diag e = []) ∧
    (e.reported = true → ∃ msg, parse_diag e = [Event.err msg]) := by
  cases e <;> simp [ClError.reported, parse_diag]

/-- C5: when `crack_pipeline` returns no pipeline, `run_command` returns to its
caller with the interpreter state unchanged, having created no pipe, spawned no
process and called no builtin; for `E_EMPTY` it emits nothing; for `E_NULL`,
`E_BADIN`, `E_BADOUT`, `E_BADSTR`, `E_PARSE` and any unknown value it emits exactly
one diagnostic, and two errors get the same diagnostic only when they select the same
case of the switch. -/
theorem run_command_parse_error (env : Env) (cmd : String) (s : Shell) (e : ClError)
    (hparse : env.crack_pipeline cmd = (none, e)) :
    run_command env cmd s = ⟨s, parse_diag e, none, false⟩ ∧
    (∀ x ∈ (run_command env cmd s).trace, ∃ msg, x = Event.err msg) ∧
    (∀ x ∈ (run_command env cmd s).trace, ∀ j,
      x.works_for j = false ∧ x.is_pipe = false ∧ x.is_fork = false ∧ x.is_builtin = false) ∧
    (e = ClError.E_EMPTY → (run_command env cmd s).trace = []) ∧
    (e.reported = true → ∃ msg, (run_command env cmd s).trace = [Event.err msg]) ∧
    (∀ e2 : ClError, e.reported = true → e2.reported = true →
      (parse_diag e = parse_diag e2 ↔ e.case = e2.case)) := by
  have hrun : run_command env cmd s = ⟨s, parse_diag e, none, false⟩ := by
    simp only [run_command, hparse]
  have herr : ∀ x ∈ parse_diag e, ∃ msg, x = Event.err msg := by
    cases e <;> simp [parse_diag]
  rw [hrun]
  refine ⟨rfl, herr, ?_, ?_, (parse_diag_cases e).2, ?_⟩
  · intro x hx j
    obtain ⟨msg, rfl⟩ := herr x hx
    exact ⟨rfl, rfl, rfl, rfl⟩
  · intro he
    subst he
    rfl
  · intro e2 h1 h2
    cases e <;> cases e2 <;> simp [ClError.reported] at h1 h2 <;>
      simp [parse_diag, ClError.case]

/-- Witness of C5: a line the parser rejects as an unterminated string. -/
theorem run_command_parse_error_witness :
    env_badstr.crack_pipeline "echo \"a" = (none, ClError.E_BADSTR) ∧
    run_command env_badstr "echo \"a" shell0 =
      ⟨shell0, [Event.err "Error: Unterminated string detected.\n"], none, false⟩ :=
  ⟨rfl, (run_command_parse_error env_badstr "echo \"a" shell0 ClError.E_BADSTR rfl).1⟩

/-! ## Wiring of standard input and output -/

theorem sys_dup2_stdin (t : FdTable) (a : Nat) (o : Obj) (h : look t a = some o) :
    sys_dup2 t (a : Int) STDIN_FILENO = put t 0 (some o) := by
  simp [sys_dup2, fd_look_nat, h, STDIN_FILENO]

theorem sys_dup2_stdout (t : FdTable) (a : Nat) (o : Obj) (h : look t a = some o) :
    sys_dup2 t (a : Int) STDOUT_FILENO = put t 1 (some o) := by
  simp [sys_dup2, fd_look_nat, h, STDOUT_FILENO]

theorem child_input_wiring (env : Env) (i : Nat) (st : clstage) (prev : Int) (t : FdTable)
    (a0 X : Obj) (hopen : ∀ p f, env.open_ok i p f = true) (h0 : look t 0 = some a0)
    (hprev : prev = STDIN_FILENO ∨ ∃ r : Nat, prev = (r : Int) ∧ r ≠ 0 ∧ look t r = some X) :
    ∃ t1, child_input env i st prev t = some t1 ∧
      look t1 0 = (match st.inname with
        | some p => some (Obj.file p OFlags.O_RDONLY 0)
        | none => if prev = STDIN_FILENO then some a0 else some X) ∧
      ∀ n, n ≠ 0 → look t n ≠ none → look t1 n = look t n := by
  have hf0 : lowest_free t ≠ 0 := lowest_free_ne t 0 (by simp [h0])
  cases hin : st.inname with
  | some p =>
    have hne : ((lowest_free t : Nat) : Int) ≠ -1 := by omega
    refine ⟨put (put (put t (lowest_free t) (some (Obj.file p OFlags.O_RDONLY 0))) 0
      (some (Obj.file p OFlags.O_RDONLY 0))) (lowest_free t) none, ?_, ?_, ?_⟩
    · simp only [child_input, hin, sys_open, hopen, if_true, hne, if_false]
      rw [sys_dup2_stdin _ _ (Obj.file p OFlags.O_RDONLY 0) (by simp [look_put]), sys_close_nat]
    · simp [look_put, Ne.symm hf0]
    · intro n hn hopen_n
      have hnf : n ≠ lowest_free t := Ne.symm (lowest_free_ne t n hopen_n)
      simp [look_put, hn, hnf]
  | none =>
    rcases hprev with hp | ⟨r, hp, hr0, hr⟩
    · refine ⟨t, ?_, ?_, fun _ _ _ => rfl⟩
      · simp [child_input, hin, hp]
      · simp [hp, h0]
    · have hne : prev ≠ STDIN_FILENO := by
        rw [hp, STDIN_FILENO]
        omega
      refine ⟨put t 0 (some X), ?_, ?_, ?_⟩
      · simp only [child_input, hin, hne, ne_eq, not_false_eq_true, if_true]
        rw [hp, sys_dup2_stdin _ _ X hr]
      · simp [look_put, hne]
      · intro n hn _
        simp [look_put, hn]

theorem child_output_wiring (env : Env) (i : Nat) (st : clstage) (fd1 : Int) (t : FdTable)
    (a1 Y : Obj) (hopen : ∀ p f, env.open_ok i p f = true) (h1 : look t 1 = some a1)
    (hfd1 : fd1 = STDOUT_FILENO ∨ ∃ w : Nat, fd1 = (w : Int) ∧ w ≠ 1 ∧ look t w = some Y) :
    look (child_output env i st fd1 t) 1 = (match st.outname with
        | some p => some (Obj.file p OFlags.O_WRONLY_CREAT_TRUNC 0o666)
        | none => if fd1 = STDOUT_FILENO then some a1 else some Y) ∧
      ∀ n, n ≠ 1 → look t n ≠ none → look (child_output env i st fd1 t) n = look t n := by
  have hf1 : lowest_free t ≠ 1 := lowest_free_ne t 1 (by simp [h1])
  cases hout : st.outname with
  | some p =>
    have hc : child_output env i st fd1 t =
        put (put (put t (lowest_free t) (some (Obj.file p OFlags.O_WRONLY_CREAT_TRUNC 0o666))) 1
          (some (Obj.file p OFlags.O_WRONLY_CREAT_TRUNC 0o666))) (lowest_free t) none := by
      simp only [child_output, hout, sys_open, hopen, if_true]
      rw [sys_dup2_stdout _ _ (Obj.file p OFlags.O_WRONLY_CREAT_TRUNC 0o666)
        (by simp [look_put]), sys_close_nat]
    rw [hc]
    refine ⟨by simp [look_put, Ne.symm hf1], ?_⟩
    intro n hn hopen_n
    have hnf : n ≠ lowest_free t := Ne.symm (lowest_free_ne t n hopen_n)
    simp [look_put, hn, hnf]
  | none =>
    rcases hfd1 with hp | ⟨w, hp, hw1, hw⟩
    · have hc : child_output env i st fd1 t = t := by simp [child_output, hout, hp]
      rw [hc]
      exact ⟨by simp [hp, h1], fun _ _ _ => rfl⟩
    · have hne : fd1 ≠ STDOUT_FILENO := by
        rw [hp, STDOUT_FILENO]
        omega
      have hc : child_output env i st fd1 t = put t 1 (some Y) := by
        simp only [child_output, hout, hne, ne_eq, not_false_eq_true, if_true]
        rw [hp, sys_dup2_stdout _ _ Y hw]
      rw [hc]
      refine ⟨by simp [look_put, hne], ?_⟩
      intro n hn _
      simp [look_put, hn]

theorem child_wiring (env : Env) (i : Nat) (st : clstage) (prev fd0 fd1 : Int) (t : FdTable)
    (a0 a1 X Y : Obj) (hopen : ∀ p f, env.open_ok i p f = true)
    (h0 : look t 0 = some a0) (h1 : look t 1 = some a1)
    (hprev : prev = STDIN_FILENO ∨ ∃ r : Nat, prev = (r : Int) ∧ r ≠ 0 ∧ look t r = some X)
    (hfd1 : fd1 = STDOUT_FILENO ∨
      ∃ w : Nat, fd1 = (w : Int) ∧ w ≠ 0 ∧ w ≠ 1 ∧ look t w = some Y)
    (hfd0 : fd0 = -1 ∨ ∃ r : Nat, fd0 = (r : Int) ∧ r ≠ 0 ∧ r ≠ 1) :
    look (child env i st prev fd0 fd1 t).fds 0 = (match st.inname with
        | some p => some (Obj.file p OFlags.O_RDONLY 0)
        | none => if prev = STDIN_FILENO then some a0 else some X) ∧
    look (child env i st prev fd0 fd1 t).fds 1 = (match st.outname with
        | some p => some (Obj.file p OFlags.O_WRONLY_CREAT_TRUNC 0o666)
        | none => if fd1 = STDOUT_FILENO then some a1 else some Y) := by
  obtain ⟨t1, hin, hin0, hinp⟩ := child_input_wiring env i st prev t a0 X hopen h0 hprev
  have h11 : look t1 1 = some a1 := by
    rw [hinp 1 (by decide) (by simp [h1]), h1]
  have hfd1a : fd1 = STDOUT_FILENO ∨ ∃ w : Nat, fd1 = (w : Int) ∧ w ≠ 1 ∧ look t1 w = some Y := by
    rcases hfd1 with h | ⟨w, hw, hw0, hw1, hwl⟩
    · exact Or.inl h
    · exact Or.inr ⟨w, hw, hw1, by rw [hinp w hw0 (by simp [hwl]), hwl]⟩
  obtain ⟨hout1, houtp⟩ := child_output_wiring env i st fd1 t1 a1 Y hopen h11 hfd1a
  have h10 : look t1 0 ≠ none := by
    rw [hin0]
    cases st.inname <;> simp
    split_ifs <;> simp
  have hout0 : look (child_output env i st fd1 t1) 0 = look t1 0 := houtp 0 (by decide) h10
  have hfds : (child env i st prev fd0 fd1 t).fds =
      if fd0 ≠ -1 then sys_close (child_output env i st fd1 t1) fd0
      else child_output env i st fd1 t1 := by
    simp only [child, hin]
    split_ifs <;> rfl
  have hlook : ∀ n, n = 0 ∨ n = 1 → look (child env i st prev fd0 fd1 t).fds n =
      look (child_output env i st fd1 t1) n := by
    intro n hn
    rw [hfds]
    rcases hfd0 with h | ⟨r, hr, hr0, hr1⟩
    · simp [h]
    · have hne : fd0 ≠ -1 := by
        rw [hr]
        omega
      simp only [hne, ne_eq, not_false_eq_true, if_true]
      rw [hr, sys_close_nat, look_put]
      have : n ≠ r := by rcases hn with h | h <;> rw [h] <;> exact Ne.symm ‹_›
      simp [this]
  exact ⟨by rw [hlook 0 (Or.inl rfl), hout0, hin0], by rw [hlook 1 (Or.inr rfl), hout1]⟩

theorem sys_pipe_spec (i : Nat) (t : FdTable) (a0 a1 : Obj) (h0 : look t 0 = some a0)
    (h1 : look t 1 = some a1) :
    ∃ r w : Nat, sys_pipe i t = ((r : Int), (w : Int),
        put (put t r (some (Obj.pipe_read i))) w (some (Obj.pipe_write i))) ∧
      r ≠ 0 ∧ r ≠ 1 ∧ w ≠ 0 ∧ w ≠ 1 ∧ w ≠ r ∧ look t r = none ∧ look t w = none := by
  have hr0 : lowest_free t ≠ 0 := lowest_free_ne t 0 (by simp [h0])
  have hr1 : lowest_free t ≠ 1 := lowest_free_ne t 1 (by simp [h1])
  have hw : look (put t (lowest_free t) (some (Obj.pipe_read i)))
      (lowest_free (put t (lowest_free t) (some (Obj.pipe_read i)))) = none :=
    look_lowest_free _
  rw [look_put] at hw
  have hwr : lowest_free (put t (lowest_free t) (some (Obj.pipe_read i))) ≠ lowest_free t := by
    intro h
    rw [if_pos h] at hw
    cases hw
  rw [if_neg hwr] at hw
  refine ⟨lowest_free t, lowest_free (put t (lowest_free t) (some (Obj.pipe_read i))), rfl,
    hr0, hr1, ?_, ?_, hwr, look_lowest_free t, hw⟩
  · intro h
    rw [h, h0] at hw
    cases hw
  · intro h
    rw [h, h1] at hw
    cases hw

theorem stage_body_run (env : Env) (len i : Nat) (st : clstage) (prev : Int) (s : Shell)
    (hcd : st.argv0 ≠ "cd") (hp : env.pipe_ok i = true) (hf : env.fork_ok i = true)
    (hwr : env.wait_returns i = true) (P : Int × Int × FdTable)
    (hP : P = if i < len - 1 then sys_pipe i s.fds else (-1, STDOUT_FILENO, s.fds)) :
    stage_body env len i st prev s =
      ((if i < len - 1 then [Event.pipe i true] else []) ++
          [Event.fork i true, Event.spawn i (child env i st prev P.1 P.2.1 P.2.2), Event.wait] ++
          (if prev ≠ STDIN_FILENO then [Event.close prev] else []) ++
          (if P.2.1 ≠ STDOUT_FILENO then [Event.close P.2.1] else []),
        Step.next P.1 { s with fds :=
          (if P.2.1 ≠ STDOUT_FILENO then
            sys_close (if prev ≠ STDIN_FILENO then sys_close P.2.2 prev else P.2.2) P.2.1
          else (if prev ≠ STDIN_FILENO then sys_close P.2.2 prev else P.2.2)) }) := by
  subst hP
  unfold stage_body
  simp only [hcd, hp, hf, hwr, if_false, if_true, and_false, Bool.true_eq_false]
  by_cases h : i < len - 1
  · simp only [h, if_true, true_and, Bool.true_eq_false, if_false]
  · simp only [h, if_false, false_and]

theorem stage_body_run_blocked (env : Env) (len i : Nat) (st : clstage) (prev : Int)
    (s : Shell) (hcd : st.argv0 ≠ "cd") (hp : env.pipe_ok i = true)
    (hf : env.fork_ok i = true) (hwr : env.wait_returns i = false) (P : Int × Int × FdTable)
    (hP : P = if i < len - 1 then sys_pipe i s.fds else (-1, STDOUT_FILENO, s.fds)) :
    stage_body env len i st prev s =
      ((if i < len - 1 then [Event.pipe i true] else []) ++
          [Event.fork i true, Event.spawn i (child env i st prev P.1 P.2.1 P.2.2), Event.wait],
        Step.blocked { s with fds := P.2.2 }) := by
  subst hP
  unfold stage_body
  simp only [hcd, hp, hf, hwr, if_false, if_true, and_false, Bool.true_eq_false]
  by_cases h : i < len - 1
  · simp only [h, if_true, true_and, Bool.true_eq_false, if_false]
  · simp only [h, if_false, false_and]

theorem wired_cases (a0 a1 : Obj) (k : Nat) (prev : Int) (t0 : FdTable)
    (hw : Wired a0 a1 k prev t0) :
    look t0 0 = some a0 ∧ look t0 1 = some a1 ∧ (k = 0 → prev = STDIN_FILENO) ∧
      (0 < k → ∃ r : Nat, prev = (r : Int) ∧ r ≠ 0 ∧ r ≠ 1 ∧
        look t0 r = some (Obj.pipe_read (k - 1))) := by
  obtain ⟨h0, h1, h2⟩ := hw
  refine ⟨h0, h1, ?_, ?_⟩
  · intro hk
    rw [if_pos hk] at h2
    exact h2
  · intro hk
    rw [if_neg (Nat.pos_iff_ne_zero.mp hk)] at h2
    obtain ⟨h3, h4⟩ := h2
    refine ⟨prev.toNat, ?_, ?_, ?_, h4⟩ <;> omega

theorem wired_prev (a0 a1 : Obj) (k : Nat) (prev : Int) (t0 : FdTable)
    (hw : Wired a0 a1 k prev t0) : (prev = STDIN_FILENO ↔ k = 0) := by
  obtain ⟨_, _, hk0, hkpos⟩ := wired_cases a0 a1 k prev t0 hw
  constructor
  · intro hp
    by_contra hk
    obtain ⟨r, hr, hr0, _, _⟩ := hkpos (Nat.pos_of_ne_zero hk)
    rw [hr, STDIN_FILENO] at hp
    omega
  · exact hk0

theorem child_wired (env : Env) (k : Nat) (st : clstage) (prev fd0 fd1 : Int)
    (t0 T : FdTable) (a0 a1 Y : Obj) (hopen : ∀ p f, env.open_ok k p f = true)
    (hw : Wired a0 a1 k prev t0)
    (hext : ∀ n, look t0 n ≠ none → look T n = look t0 n)
    (hfd1 : fd1 = STDOUT_FILENO ∨
      ∃ w : Nat, fd1 = (w : Int) ∧ w ≠ 0 ∧ w ≠ 1 ∧ look T w = some Y)
    (hfd0 : fd0 = -1 ∨ ∃ r : Nat, fd0 = (r : Int) ∧ r ≠ 0 ∧ r ≠ 1) :
    look (child env k st prev fd0 fd1 T).fds 0 = spec_stdin (some a0) k st ∧
    look (child env k st prev fd0 fd1 T).fds 1 = (match st.outname with
        | some p => some (Obj.file p OFlags.O_WRONLY_CREAT_TRUNC 0o666)
        | none => if fd1 = STDOUT_FILENO then some a1 else some Y) := by
  have hpk := wired_prev a0 a1 k prev t0 hw
  obtain ⟨h0, h1, hk0, hkpos⟩ := wired_cases a0 a1 k prev t0 hw
  have hT0 : look T 0 = some a0 := by rw [hext 0 (by simp [h0]), h0]
  have hT1 : look T 1 = some a1 := by rw [hext 1 (by simp [h1]), h1]
  have hprev : prev = STDIN_FILENO ∨
      ∃ r : Nat, prev = (r : Int) ∧ r ≠ 0 ∧ look T r = some (Obj.pipe_read (k - 1)) := by
    rcases Nat.eq_zero_or_pos k with hz | hpos
    · exact Or.inl (hk0 hz)
    · obtain ⟨r, hr, hr0, _, hl⟩ := hkpos hpos
      exact Or.inr ⟨r, hr, hr0, by rw [hext r (by simp [hl]), hl]⟩
  obtain ⟨hin, hout⟩ := child_wiring env k st prev fd0 fd1 T a0 a1 (Obj.pipe_read (k - 1)) Y
    hopen hT0 hT1 hprev hfd1 hfd0
  refine ⟨?_, hout⟩
  rw [hin, spec_stdin]
  cases st.inname with
  | some p => rfl
  | none =>
    by_cases hk : k = 0
    · simp [hk, hpk.2 hk]
    · have : ¬ prev = STDIN_FILENO := fun h => hk (hpk.1 h)
      simp [this, Nat.pos_of_ne_zero hk]

theorem stage_child_wired (env : Env) (len k : Nat) (st : clstage) (prev : Int) (s : Shell)
    (a0 a1 : Obj) (hopen : ∀ p f, env.open_ok k p f = true)
    (hw : Wired a0 a1 k prev s.fds) (P : Int × Int × FdTable)
    (hP : P = if k < len - 1 then sys_pipe k s.fds else (-1, STDOUT_FILENO, s.fds)) :
    look (child env k st prev P.1 P.2.1 P.2.2).fds 0 = spec_stdin (some a0) k st ∧
    look (child env k st prev P.1 P.2.1 P.2.2).fds 1 = spec_stdout (some a1) len k st := by
  subst hP
  by_cases hk : k < len - 1
  · obtain ⟨r, w, hpipe, hr0, hr1, hw0, hw1, hwr, hlr, hlw⟩ :=
      sys_pipe_spec k s.fds a0 a1 hw.1 hw.2.1
    simp only [hk, if_true]
    rw [hpipe]
    have hext : ∀ n, look s.fds n ≠ none →
        look (put (put s.fds r (some (Obj.pipe_read k))) w (some (Obj.pipe_write k))) n =
          look s.fds n := by
      intro n hn
      have h1 : n ≠ r := fun h => hn (by rw [h, hlr])
      have h2 : n ≠ w := fun h => hn (by rw [h, hlw])
      simp [look_put, h1, h2]
    obtain ⟨hin, hout⟩ := child_wired env k st prev (r : Int) (w : Int) s.fds
      (put (put s.fds r (some (Obj.pipe_read k))) w (some (Obj.pipe_write k)))
      a0 a1 (Obj.pipe_write k) hopen hw hext
      (Or.inr ⟨w, rfl, hw0, hw1, by simp [look_put]⟩) (Or.inr ⟨r, rfl, hr0, hr1⟩)
    have hwne : (w : Int) ≠ STDOUT_FILENO := by
      rw [STDOUT_FILENO]
      omega
    refine ⟨hin, ?_⟩
    rw [hout, spec_stdout]
    have : k + 1 < len := by omega
    simp [hwne, this]
  · simp only [hk, if_false]
    obtain ⟨hin, hout⟩ := child_wired env k st prev (-1) STDOUT_FILENO s.fds s.fds
      a0 a1 a1 hopen hw (fun _ _ => rfl) (Or.inl rfl) (Or.inl rfl)
    refine ⟨hin, ?_⟩
    rw [hout, spec_stdout]
    have : ¬ k + 1 < len := by omega
    simp [this]

theorem stage_body_wired_spawn (env : Env) (len k : Nat) (st : clstage) (prev : Int)
    (s : Shell) (a0 a1 : Obj) (hcd : st.argv0 ≠ "cd") (hp : env.pipe_ok k = true)
    (hf : env.fork_ok k = true) (hopen : ∀ p f, env.open_ok k p f = true)
    (hw : Wired a0 a1 k prev s.fds) :
    ∃ c, Event.spawn k c ∈ (stage_body env len k st prev s).1 ∧
      look c.fds 0 = spec_stdin (some a0) k st ∧
      look c.fds 1 = spec_stdout (some a1) len k st := by
  obtain ⟨hin, hout⟩ := stage_child_wired env len k st prev s a0 a1 hopen hw _ rfl
  refine ⟨_, ?_, hin, hout⟩
  cases hwr : env.wait_returns k with
  | true =>
    rw [stage_body_run env len k st prev s hcd hp hf hwr _ rfl]
    simp
  | false =>
    rw [stage_body_run_blocked env len k st prev s hcd hp hf hwr _ rfl]
    simp

theorem stage_body_wired (env : Env) (len k : Nat) (st : clstage) (prev : Int) (s : Shell)
    (a0 a1 : Obj) (hcd : st.argv0 ≠ "cd") (hp : env.pipe_ok k = true)
    (hf : env.fork_ok k = true) (hwait : env.wait_returns k = true)
    (hopen : ∀ p f, env.open_ok k p f = true)
    (hw : Wired a0 a1 k prev s.fds) :
    ∃ c evs p s1, stage_body env len k st prev s = (evs, Step.next p s1) ∧
      Event.spawn k c ∈ evs ∧
      look c.fds 0 = spec_stdin (some a0) k st ∧
      look c.fds 1 = spec_stdout (some a1) len k st ∧
      (k + 1 < len → Wired a0 a1 (k + 1) p s1.fds) := by
  by_cases hk : k < len - 1
  · obtain ⟨r, w, hpipe, hr0, hr1, hw0, hw1, hwr, hlr, hlw⟩ :=
      sys_pipe_spec k s.fds a0 a1 hw.1 hw.2.1
    have hb := stage_body_run env len k st prev s hcd hp hf hwait (sys_pipe k s.fds)
      (by simp [hk])
    rw [hpipe] at hb
    simp only [hk, if_true] at hb
    have hext : ∀ n, look s.fds n ≠ none →
        look (put (put s.fds r (some (Obj.pipe_read k))) w (some (Obj.pipe_write k))) n =
          look s.fds n := by
      intro n hn
      have h1 : n ≠ r := fun h => hn (by rw [h, hlr])
      have h2 : n ≠ w := fun h => hn (by rw [h, hlw])
      simp [look_put, h1, h2]
    obtain ⟨hin, hout⟩ := child_wired env k st prev (r : Int) (w : Int) s.fds
      (put (put s.fds r (some (Obj.pipe_read k))) w (some (Obj.pipe_write k)))
      a0 a1 (Obj.pipe_write k) hopen hw hext
      (Or.inr ⟨w, rfl, hw0, hw1, by simp [look_put]⟩) (Or.inr ⟨r, rfl, hr0, hr1⟩)
    have hwne : (w : Int) ≠ STDOUT_FILENO := by
      rw [STDOUT_FILENO]
      omega
    refine ⟨_, _, _, _, hb, by simp, hin, ?_, ?_⟩
    · rw [hout, spec_stdout]
      have : k + 1 < len := by omega
      simp [hwne, this]
    · intro _
      obtain ⟨h0, h1, hk0, hkpos⟩ := wired_cases a0 a1 k prev s.fds hw
      simp only [hwne, ne_eq, not_false_eq_true, if_true, sys_close_nat]
      have hkeep : ∀ n, n ≠ w → look s.fds n = none ∨ n = 0 ∨ n = 1 →
          look (put (if prev ≠ STDIN_FILENO then
              sys_close (put (put s.fds r (some (Obj.pipe_read k))) w
                (some (Obj.pipe_write k))) prev
            else put (put s.fds r (some (Obj.pipe_read k))) w (some (Obj.pipe_write k))) w none) n =
          look (put s.fds r (some (Obj.pipe_read k))) n := by
        intro n hnw hn
        rcases Nat.eq_zero_or_pos k with hz | hpos
        · have : prev = STDIN_FILENO := hk0 hz
          simp [look_put, hnw, this]
        · obtain ⟨r1, hr, hr10, hr11, hl⟩ := hkpos hpos
          have hne : prev ≠ STDIN_FILENO := by
            rw [hr, STDIN_FILENO]
            omega
          have hnr1 : n ≠ r1 := by
            rcases hn with hn | hn | hn
            · intro h
              rw [h, hl] at hn
              cases hn
            · rw [hn]
              exact Ne.symm hr10
            · rw [hn]
              exact Ne.symm hr11
          simp only [hne, ne_eq, not_false_eq_true, if_true]
          rw [hr, sys_close_nat]
          simp [look_put, hnw, hnr1]
      refine ⟨?_, ?_, ?_⟩
      · rw [hkeep 0 (Ne.symm hw0) (Or.inr (Or.inl rfl)), look_put, if_neg (Ne.symm hr0), h0]
      · rw [hkeep 1 (Ne.symm hw1) (Or.inr (Or.inr rfl)), look_put, if_neg (Ne.symm hr1), h1]
      · rw [if_neg (Nat.succ_ne_zero k)]
        refine ⟨by omega, ?_⟩
        rw [Int.toNat_ofNat, hkeep r (Ne.symm hwr) (Or.inl hlr), look_put]
        simp
  · have hb := stage_body_run env len k st prev s hcd hp hf hwait (-1, STDOUT_FILENO, s.fds)
      (by simp [hk])
    simp only [hk, if_false] at hb
    obtain ⟨hin, hout⟩ := child_wired env k st prev (-1) STDOUT_FILENO s.fds s.fds
      a0 a1 a1 hopen hw (fun _ _ => rfl) (Or.inl rfl) (Or.inl rfl)
    refine ⟨_, _, _, _, hb, by simp, hin, ?_, ?_⟩
    · rw [hout, spec_stdout]
      have : ¬ k + 1 < len := by omega
      simp [this]
    · intro h
      omega

theorem stage_loop_wired (env : Env) (len : Nat) (a0 a1 : Obj)
    (hp : ∀ i, env.pipe_ok i = true) (hf : ∀ i, env.fork_ok i = true)
    (hopen : ∀ i p f, env.open_ok i p f = true) :
    ∀ (rest : List clstage) (k : Nat) (prev : Int) (s : Shell),
      k + rest.length = len → (∀ st ∈ rest, st.argv0 ≠ "cd") →
      (rest ≠ [] → Wired a0 a1 k prev s.fds) →
      ∀ j st, rest.get? j = some st →
        (∀ m, k ≤ m → m < k + j → env.wait_returns m = true) →
        ∃ c, Event.spawn (k + j) c ∈ (stage_loop env len k rest prev s).trace ∧
          look c.fds 0 = spec_stdin (some a0) (k + j) st ∧
          look c.fds 1 = spec_stdout (some a1) len (k + j) st := by
  intro rest
  induction rest with
  | nil =>
    intro k prev s _ _ _ j st h
    simp at h
  | cons st0 rest ih =>
    intro k prev s hlen hcd hw j st hget hwait
    simp only [List.length_cons] at hlen
    cases j with
    | zero =>
      simp only [List.get?_cons_zero, Option.some.injEq] at hget
      subst hget
      obtain ⟨c, hmem, hin, hout⟩ :=
        stage_body_wired_spawn env len k st0 prev s a0 a1 (hcd st0 (List.mem_cons_self _ _))
          (hp k) (hf k) (hopen k) (hw (by simp))
      refine ⟨c, ?_, hin, hout⟩
      rw [stage_loop_cons]
      rcases hsb : stage_body env len k st0 prev s with ⟨evs, step⟩
      rw [hsb] at hmem
      cases step <;> simp [hmem]
    | succ j =>
      obtain ⟨c, evs, p, s1, hb, hmem, hin, hout, hnext⟩ :=
        stage_body_wired env len k st0 prev s a0 a1 (hcd st0 (List.mem_cons_self _ _)) (hp k)
          (hf k) (hwait k (Nat.le_refl _) (by omega)) (hopen k) (hw (by simp))
      rw [stage_loop_cons, hb]
      simp only [List.get?_cons_succ] at hget
      have hne : rest ≠ [] := by
        intro h
        rw [h] at hget
        simp at hget
      have hlt : k + 1 < len := by
        have : 0 < rest.length := List.length_pos.mpr hne
        omega
      obtain ⟨c1, hm1, hin1, hout1⟩ := ih (k + 1) p s1 (by omega)
        (fun x hx => hcd x (List.mem_cons_of_mem _ hx)) (fun _ => hnext hlt) j st hget
        (fun m h1 h2 => hwait m (by omega) (by omega))
      have hidx : k + 1 + j = k + (j + 1) := by omega
      rw [hidx] at hm1 hin1 hout1
      exact ⟨c1, by simp [hm1], hin1, hout1⟩

/-- The first stage whose `wait` does not return, or `len` when every `wait` of the
stages below `len` returns. -/
theorem first_stuck (env : Env) (len : Nat) :
    ∃ k, k ≤ len ∧ (∀ j, j < k → env.wait_returns j = true) ∧
      (k < len → env.wait_returns k = false) := by
  induction len with
  | zero =>
    exact ⟨0, Nat.le_refl _, fun _ h => absurd h (Nat.not_lt_zero _),
      fun h => absurd h (Nat.lt_irrefl _)⟩
  | succ n ih =>
    obtain ⟨k, hk, hlow, hat⟩ := ih
    by_cases hkn : k < n
    · exact ⟨k, by omega, hlow, fun _ => hat hkn⟩
    · have hkn1 : k = n := by omega
      subst hkn1
      cases hw : env.wait_returns k with
      | false => exact ⟨k, by omega, hlow, fun _ => hw⟩
      | true =>
        refine ⟨k + 1, Nat.le_refl _, ?_, fun h => absurd h (Nat.lt_irrefl _)⟩
        intro j hj
        by_cases hjk : j < k
        · exact hlow j hjk
        · have : j = k := by omega
          rw [this]
          exact hw

/-- C4: on a pipeline without `cd`, when `pipe`, `fork` and every `open` succeed, the
interpreter has its descriptors 0 and 1 open and the waits for the stages before
stage `i` return (so that the loop reaches stage `i`), exactly one process is
spawned for stage `i`; its standard input is the input-redirection file opened read-only if a
path is present, otherwise the read end of the pipe of stage `i - 1` if `i > 0`,
otherwise the interpreter's standard input; its standard output is the
output-redirection file opened create/truncate with mode 0666 if a path is present,
otherwise the write end of the pipe of stage `i` if the stage is not the last,
otherwise the interpreter's standard output.  A redirection path wins over the pipe. -/
theorem run_command_wiring (env : Env) (cmd : String) (s : Shell) (cl : pipeline)
    (e : ClError) (a0 a1 : Obj) (i : Nat) (st : clstage)
    (hparse : env.crack_pipeline cmd = (some cl, e))
    (hcd : ∀ st ∈ cl.stage, st.argv0 ≠ "cd")
    (hp : ∀ i, env.pipe_ok i = true) (hf : ∀ i, env.fork_ok i = true)
    (hopen : ∀ i p f, env.open_ok i p f = true)
    (h0 : look s.fds 0 = some a0) (h1 : look s.fds 1 = some a1)
    (hst : cl.stage.get? i = some st)
    (hwait : ∀ j, j < i → env.wait_returns j = true) :
    (run_command env cmd s).trace.countP (Event.is_spawn_of i) = 1 ∧
    ∃ c, Event.spawn i c ∈ (run_command env cmd s).trace ∧
      look c.fds 0 = spec_stdin (look s.fds 0) i st ∧
      look c.fds 1 = spec_stdout (look s.fds 1) cl.length i st ∧
      (∀ p, st.inname = some p → look c.fds 0 = some (Obj.file p OFlags.O_RDONLY 0)) ∧
      (∀ p, st.outname = some p →
        look c.fds 1 = some (Obj.file p OFlags.O_WRONLY_CREAT_TRUNC 0o666)) := by
  have hw : Wired a0 a1 0 STDIN_FILENO s.fds := ⟨h0, h1, by simp⟩
  obtain ⟨c, hm, hin, hout⟩ := stage_loop_wired env cl.length a0 a1 hp hf hopen cl.stage 0
    STDIN_FILENO s (by simp [pipeline.length]) hcd (fun _ => hw) i st hst
    (fun m _ h2 => hwait m (by omega))
  rw [Nat.zero_add] at hm hin hout
  have hi : i < cl.length := by
    have := List.get?_eq_some.mp hst
    obtain ⟨h, _⟩ := this
    exact h
  constructor
  · obtain ⟨k, hk, hlow, hat⟩ := first_stuck env cl.length
    have hik : i ≤ k := by
      by_contra hlt
      have h2 := hwait k (by omega)
      rw [hat (by omega)] at h2
      cases h2
    obtain ⟨hex, _, _, _, h4⟩ := stage_loop_counts env cl.length k hp hf hlow hat cl.stage 0
      STDIN_FILENO s (by simp [pipeline.length]) (Nat.zero_le _) hk hcd
    have hc := (h4 i).2.2
    rw [if_pos ⟨Nat.zero_le _, by omega⟩] at hc
    rw [run_command_parsed env cmd s cl e hparse, hex]
    cases (stage_loop env cl.length 0 cl.stage STDIN_FILENO s).blocked with
    | true => simpa using hc
    | false =>
      simp only [Bool.false_eq_true, if_false, List.countP_append, hc]
      rfl
  · refine ⟨c, (run_command_mem env cmd s cl e hparse _).mpr (Or.inl hm), by rw [h0, hin],
      by rw [h1, hout], ?_, ?_⟩
    · intro p hp1
      rw [hin, spec_stdin, hp1]
    · intro p hp1
      rw [hout, spec_stdout, hp1]

/-- Witness of C4: the second stage of `sort < in | uniq > out`. -/
theorem run_command_wiring_witness :
    (run_command env_ok "sort < in | uniq > out" shell0).trace.countP (Event.is_spawn_of 1) = 1 ∧
    ∃ c, Event.spawn 1 c ∈ (run_command env_ok "sort < in | uniq > out" shell0).trace ∧
      look c.fds 0 = some (Obj.pipe_read 0) ∧
      look c.fds 1 = some (Obj.file "out" OFlags.O_WRONLY_CREAT_TRUNC 0o666) :=
  have h := run_command_wiring env_ok "sort < in | uniq > out" shell0
    ⟨[⟨"sort", [], some "in", none⟩, ⟨"uniq", [], none, some "out"⟩]⟩ ClError.E_NONE
    (Obj.inherited 0) (Obj.inherited 1) 1 ⟨"uniq", [], none, some "out"⟩ rfl (by decide)
    (fun _ => rfl) (fun _ => rfl) (fun _ _ _ => rfl) rfl rfl rfl (fun _ _ => rfl)
  ⟨h.1, h.2.imp fun _ hc => ⟨hc.1, hc.2.1, hc.2.2.1⟩⟩

/-! ## When the interpreter terminates -/

theorem handle_cd_no_failed (env : Env) (argv : List String) (argc : Nat) (s : Shell) :
    ∀ x ∈ (handle_cd_command env argv argc s).1, x.is_failed_call = false := by
  unfold handle_cd_command
  cases cd_dir env argv argc with
  | none => simp [Event.is_failed_call]
  | some d => cases h : env.chdir s.cwd d <;> simp [Event.is_failed_call, h]

/-- What a failed call on the trace says about the environment. -/
theorem stage_body_failed (env : Env) (len i : Nat) (st : clstage) (prev : Int) (s : Shell) :
    ∀ x ∈ (stage_body env len i st prev s).1, x.is_failed_call = true →
      (x = Event.pipe i false ∧ env.pipe_ok i = false) ∨
        (x = Event.fork i false ∧ env.fork_ok i = false) := by
  unfold stage_body
  split_ifs with h1 h2 h3 h4 h5
  · intro x hx hw
    simp only [List.mem_cons] at hx
    rcases hx with hx | hx
    · subst hx
      cases hw
    · rw [handle_cd_no_failed env _ _ s x hx] at hw
      cases hw
  · simp [Event.is_failed_call, cd_in_pipeline]
  · simp [Event.is_failed_call, h3.2]
  all_goals simp_all [Event.is_failed_call]

theorem stage_body_next (env : Env) (len i : Nat) (st : clstage) (prev : Int) (s : Shell)
    (evs : List Event) (p : Int) (s1 : Shell)
    (h : stage_body env len i st prev s = (evs, Step.next p s1)) :
    ∀ x ∈ evs, x.is_failed_call = false := by
  unfold stage_body at h
  split_ifs at h with h1 h2 h3 h4 h5
  · simp only [Prod.mk.injEq] at h
    obtain ⟨h, _⟩ := h
    subst h
    intro x hx
    simp only [List.mem_cons] at hx
    rcases hx with hx | hx
    · subst hx
      rfl
    · exact handle_cd_no_failed env _ _ s x hx
  · simp only [Prod.mk.injEq] at h
    obtain ⟨h, _⟩ := h
    subst h
    simp [Event.is_failed_call, cd_in_pipeline]
  all_goals simp only [Prod.mk.injEq, reduceCtorEq, and_false] at h
  all_goals
    obtain ⟨h, _⟩ := h
    subst h
    simp [Event.is_failed_call]

theorem stage_body_stop (env : Env) (len i : Nat) (st : clstage) (prev : Int) (s : Shell)
    (evs : List Event) (status : Nat) (s1 : Shell)
    (h : stage_body env len i st prev s = (evs, Step.stop status s1)) :
    status = EXIT_FAILURE ∧
      ∃ pre x tag, evs = pre ++ [x, Event.perror tag, Event.terminate EXIT_FAILURE] ∧
        x.is_failed_call = true ∧ (tag = "pipe" ∨ tag = "fork") ∧
        ∀ y ∈ pre, y.is_failed_call = false := by
  unfold stage_body at h
  split_ifs at h with h1 h2 h3 h4 h5
  all_goals simp only [Prod.mk.injEq, reduceCtorEq, and_false, Step.stop.injEq] at h
  · obtain ⟨h, hs, _⟩ := h
    subst h
    exact ⟨hs.symm, [], _, "pipe", rfl, rfl, Or.inl rfl, by simp⟩
  · obtain ⟨h, hs, _⟩ := h
    subst h
    exact ⟨hs.symm, [Event.pipe i true], _, "fork", rfl, rfl, Or.inr rfl,
      by simp [Event.is_failed_call]⟩
  · obtain ⟨h, hs, _⟩ := h
    subst h
    exact ⟨hs.symm, [], _, "fork", rfl, rfl, Or.inr rfl, by simp⟩

theorem stage_loop_failed (env : Env) (len : Nat) :
    ∀ (rest : List clstage) (k : Nat) (prev : Int) (s : Shell),
      ∀ x ∈ (stage_loop env len k rest prev s).trace, x.is_failed_call = true →
        ∃ j, (x = Event.pipe j false ∧ env.pipe_ok j = false) ∨
          (x = Event.fork j false ∧ env.fork_ok j = false) := by
  intro rest
  induction rest with
  | nil =>
    intro k prev s x hx
    simp [stage_loop] at hx
  | cons st rest ih =>
    intro k prev s x hx hw
    rw [stage_loop_cons] at hx
    have hb := stage_body_failed env len k st prev s
    rcases h : stage_body env len k st prev s with ⟨evs, step⟩
    rw [h] at hx hb
    cases step with
    | stop status s1 => exact ⟨k, hb x hx hw⟩
    | blocked s1 => exact ⟨k, hb x hx hw⟩
    | next p s1 =>
      simp only [List.mem_append] at hx
      rcases hx with hx | hx
      · exact ⟨k, hb x hx hw⟩
      · exact ih (k + 1) p s1 x hx hw

theorem stage_body_blocked_calls (env : Env) (len i : Nat) (st : clstage) (prev : Int)
    (s : Shell) (evs : List Event) (s1 : Shell)
    (h : stage_body env len i st prev s = (evs, Step.blocked s1)) :
    ∀ x ∈ evs, x.is_failed_call = false := by
  unfold stage_body at h
  split_ifs at h with h1 h2 h3 h4 h5
  all_goals simp only [Prod.mk.injEq, reduceCtorEq, and_false] at h
  all_goals
    obtain ⟨h, _⟩ := h
    subst h
    simp [Event.is_failed_call]

theorem stage_loop_exit (env : Env) (len : Nat) :
    ∀ (rest : List clstage) (k : Nat) (prev : Int) (s : Shell),
      ((stage_loop env len k rest prev s).exit = none →
        ∀ x ∈ (stage_loop env len k rest prev s).trace, x.is_failed_call = false) ∧
      (∀ status, (stage_loop env len k rest prev s).exit = some status →
        status = EXIT_FAILURE ∧
        ∃ pre x tag, (stage_loop env len k rest prev s).trace =
            pre ++ [x, Event.perror tag, Event.terminate EXIT_FAILURE] ∧
          x.is_failed_call = true ∧ (tag = "pipe" ∨ tag = "fork") ∧
          ∀ y ∈ pre, y.is_failed_call = false) := by
  intro rest
  induction rest with
  | nil =>
    intro k prev s
    simp [stage_loop]
  | cons st rest ih =>
    intro k prev s
    rw [stage_loop_cons]
    rcases h : stage_body env len k st prev s with ⟨evs, step⟩
    cases step with
    | stop status s1 =>
      obtain ⟨hs, pre, x, tag, he, hx, ht, hpre⟩ := stage_body_stop env len k st prev s _ _ _ h
      refine ⟨fun hn => (by cases hn), ?_⟩
      intro status1 hst
      simp only [Option.some.injEq] at hst
      subst hst
      exact ⟨hs, pre, x, tag, he, hx, ht, hpre⟩
    | blocked s1 =>
      have hn := stage_body_blocked_calls env len k st prev s _ _ h
      exact ⟨fun _ x hx => hn x hx, fun status hst => (by cases hst)⟩
    | next p s1 =>
      have hn := stage_body_next env len k st prev s _ _ _ h
      obtain ⟨h1, h2⟩ := ih (k + 1) p s1
      constructor
      · intro hex x hx
        simp only [List.mem_append] at hx
        rcases hx with hx | hx
        · exact hn x hx
        · exact h1 hex x hx
      · intro status hst
        obtain ⟨hs, pre, x, tag, he, hx, ht, hpre⟩ := h2 status hst
        refine ⟨hs, evs ++ pre, x, tag, ?_, hx, ht, ?_⟩
        · simp only [he, List.append_assoc]
        · intro y hy
          simp only [List.mem_append] at hy
          rcases hy with hy | hy
          · exact hn y hy
          · exact hpre y hy

/-- What the environment makes of a stage that is not `cd`. -/
theorem stage_body_kind (env : Env) (len i : Nat) (st : clstage) (prev : Int) (s : Shell)
    (hcd : st.argv0 ≠ "cd") :
    (env.fatal len i → ∃ evs s1, stage_body env len i st prev s =
      (evs, Step.stop EXIT_FAILURE s1)) ∧
    (env.stuck len i → ∃ evs s1, stage_body env len i st prev s = (evs, Step.blocked s1)) ∧
    (env.passes len i → ∃ evs p s1, stage_body env len i st prev s =
      (evs, Step.next p s1)) := by
  unfold Env.fatal Env.stuck Env.passes stage_body
  simp only [hcd, if_false]
  by_cases hl : i < len - 1 <;> cases hp : env.pipe_ok i <;> cases hf : env.fork_ok i <;>
    cases hw : env.wait_returns i <;> simp [hl]

theorem stage_body_cd (env : Env) (len i : Nat) (st : clstage) (prev : Int) (s : Shell)
    (hcd : st.argv0 = "cd") :
    ∃ evs s1, stage_body env len i st prev s = (evs, Step.next prev s1) := by
  unfold stage_body
  simp only [hcd, if_true]
  split_ifs <;> exact ⟨_, _, rfl⟩

/-- A stage that is not `cd` is fatal, stuck or passes, and only one of these. -/
theorem env_kind (env : Env) (len i : Nat) :
    (env.fatal len i ∨ env.stuck len i ∨ env.passes len i) ∧
    ¬ (env.fatal len i ∧ env.stuck len i) ∧ ¬ (env.fatal len i ∧ env.passes len i) ∧
    ¬ (env.stuck len i ∧ env.passes len i) := by
  unfold Env.fatal Env.stuck Env.passes
  by_cases hl : i < len - 1 <;> cases hp : env.pipe_ok i <;> cases hf : env.fork_ok i <;>
    cases hw : env.wait_returns i <;> simp [hl]

theorem comes_to_nil (env : Env) (len : Nat) (Q : Nat → Prop) (i : Nat) :
    ¬ env.comes_to len Q i [] := by
  rintro ⟨k, st, h, _⟩
  simp at h

/-- The loop goes past a first stage that is `cd`, or whose calls succeed and return. -/
theorem comes_to_cons_pass (env : Env) (len : Nat) (Q : Nat → Prop) (i : Nat) (st : clstage)
    (rest : List clstage) (hpass : st.argv0 ≠ "cd" → env.passes len i)
    (hQ : st.argv0 ≠ "cd" → ¬ Q i) :
    env.comes_to len Q i (st :: rest) ↔ env.comes_to len Q (i + 1) rest := by
  constructor
  · rintro ⟨k, st1, hget, hcd, hq, hbefore⟩
    cases k with
    | zero =>
      simp only [List.get?_cons_zero, Option.some.injEq] at hget
      subst hget
      exact absurd hq (hQ hcd)
    | succ k =>
      refine ⟨k, st1, by simpa using hget, hcd, ?_, ?_⟩
      · have : i + 1 + k = i + (k + 1) := by omega
        rw [this]
        exact hq
      · intro j stj hj hgj hcj
        have : i + 1 + j = i + (j + 1) := by omega
        rw [this]
        exact hbefore (j + 1) stj (by omega) (by simpa using hgj) hcj
  · rintro ⟨k, st1, hget, hcd, hq, hbefore⟩
    refine ⟨k + 1, st1, by simpa using hget, hcd, ?_, ?_⟩
    · have : i + (k + 1) = i + 1 + k := by omega
      rw [this]
      exact hq
    · intro j stj hj hgj hcj
      cases j with
      | zero =>
        simp only [List.get?_cons_zero, Option.some.injEq] at hgj
        subst hgj
        exact hpass hcj
      | succ j =>
        have : i + (j + 1) = i + 1 + j := by omega
        rw [this]
        exact hbefore j stj (by omega) (by simpa using hgj) hcj

/-- The loop stops at a first stage that is not `cd` and does not pass. -/
theorem comes_to_cons_stop (env : Env) (len : Nat) (Q : Nat → Prop) (i : Nat) (st : clstage)
    (rest : List clstage) (hcd : st.argv0 ≠ "cd") (hnot : ¬ env.passes len i) :
    env.comes_to len Q i (st :: rest) ↔ Q i := by
  constructor
  · rintro ⟨k, st1, hget, hcd1, hq, hbefore⟩
    cases k with
    | zero => exact hq
    | succ k => exact absurd (hbefore 0 st (by omega) rfl hcd) hnot
  · intro hq
    exact ⟨0, st, rfl, hcd, hq, fun j _ hj => absurd hj (Nat.not_lt_zero _)⟩

/-- The outcome of the stage loop, read off the environment. -/
theorem stage_loop_fate (env : Env) (len : Nat) :
    ∀ (rest : List clstage) (i : Nat) (prev : Int) (s : Shell),
      ((stage_loop env len i rest prev s).exit = some EXIT_FAILURE ↔
        env.comes_to len (env.fatal len) i rest) ∧
      ((stage_loop env len i rest prev s).exit = none ↔
        ¬ env.comes_to len (env.fatal len) i rest) ∧
      ((stage_loop env len i rest prev s).blocked = true ↔
        env.comes_to len (env.stuck len) i rest) := by
  intro rest
  induction rest with
  | nil =>
    intro i prev s
    simp [stage_loop, comes_to_nil]
  | cons st rest ih =>
    intro i prev s
    rw [stage_loop_cons]
    obtain ⟨hall, hfs, hfp, hsp⟩ := env_kind env len i
    by_cases hcd : st.argv0 = "cd"
    · obtain ⟨evs, s1, hb⟩ := stage_body_cd env len i st prev s hcd
      rw [hb]
      rw [comes_to_cons_pass env len _ i st rest (fun h => absurd hcd h) (fun h => absurd hcd h),
        comes_to_cons_pass env len _ i st rest (fun h => absurd hcd h) (fun h => absurd hcd h)]
      exact ih (i + 1) prev s1
    · obtain ⟨kf, ks, kp⟩ := stage_body_kind env len i st prev s hcd
      rcases hall with hf | hs | hp
      · obtain ⟨evs, s1, hb⟩ := kf hf
        have hnp : ¬ env.passes len i := fun h => hfp ⟨hf, h⟩
        have hns : ¬ env.stuck len i := fun h => hfs ⟨hf, h⟩
        rw [hb, comes_to_cons_stop env len _ i st rest hcd hnp,
          comes_to_cons_stop env len _ i st rest hcd hnp]
        simp [hf, hns]
      · obtain ⟨evs, s1, hb⟩ := ks hs
        have hnp : ¬ env.passes len i := fun h => hsp ⟨hs, h⟩
        have hnf : ¬ env.fatal len i := fun h => hfs ⟨h, hs⟩
        rw [hb, comes_to_cons_stop env len _ i st rest hcd hnp,
          comes_to_cons_stop env len _ i st rest hcd hnp]
        simp [hs, hnf]
      · obtain ⟨evs, p, s1, hb⟩ := kp hp
        have hnf : ¬ env.fatal len i := fun h => hfp ⟨h, hp⟩
        have hns : ¬ env.stuck len i := fun h => hsp ⟨h, hp⟩
        rw [hb, comes_to_cons_pass env len _ i st rest (fun _ => hp) (fun _ => hnf),
          comes_to_cons_pass env len _ i st rest (fun _ => hp) (fun _ => hns)]
        exact ih (i + 1) p s1

theorem stage_loop_blocked_exit (env : Env) (len : Nat) :
    ∀ (rest : List clstage) (i : Nat) (prev : Int) (s : Shell),
      (stage_loop env len i rest prev s).blocked = true →
        (stage_loop env len i rest prev s).exit = none := by
  intro rest
  induction rest with
  | nil =>
    intro i prev s h
    rfl
  | cons st rest ih =>
    intro i prev s
    rw [stage_loop_cons]
    rcases stage_body env len i st prev s with ⟨evs, step⟩
    cases step with
    | next p s1 => exact ih (i + 1) p s1
    | stop status s1 =>
      intro h
      cases h
    | blocked s1 =>
      intro _
      rfl

theorem run_command_blocked (env : Env) (cmd : String) (s : Shell) (cl : pipeline)
    (e : ClError) (hparse : env.crack_pipeline cmd = (some cl, e)) :
    (run_command env cmd s).blocked =
      (stage_loop env cl.length 0 cl.stage STDIN_FILENO s).blocked := by
  have hbe := stage_loop_blocked_exit env cl.length cl.stage 0 STDIN_FILENO s
  rw [run_command_parsed env cmd s cl e hparse]
  cases hex : (stage_loop env cl.length 0 cl.stage STDIN_FILENO s).exit with
  | none =>
    cases (stage_loop env cl.length 0 cl.stage STDIN_FILENO s).blocked <;> rfl
  | some status =>
    cases hbl : (stage_loop env cl.length 0 cl.stage STDIN_FILENO s).blocked with
    | false => rfl
    | true =>
      rw [hbe hbl] at hex
      cases hex

/-- C6 as stated fails: on the line `nosuchcmd | seq 1 50000 | wc -l` no `pipe` and no
`fork` call fails; `execvp` fails in the child of stage 0, which reports it and exits
with `EXIT_FAILURE`, and the `wait` for the child of stage 1 does not return.  The
interpreter is not ended, and `run_command` does not return to its caller either. -/
theorem run_command_exec_failure_stuck :
    env_stuck_after_exec.crack_pipeline "nosuchcmd | seq 1 50000 | wc -l" =
      (some ⟨[⟨"nosuchcmd", [], none, none⟩, ⟨"seq", ["1", "50000"], none, none⟩,
        ⟨"wc", ["-l"], none, none⟩]⟩, ClError.E_NONE) ∧
    (∀ i, env_stuck_after_exec.pipe_ok i = true ∧ env_stuck_after_exec.fork_ok i = true) ∧
    Event.spawn 0 ⟨[some (Obj.inherited 0), some (Obj.pipe_write 0), some (Obj.inherited 2),
        none, some (Obj.pipe_write 0)], ["execvp"], some (ChildEnd.exited EXIT_FAILURE)⟩ ∈
      (run_command env_stuck_after_exec "nosuchcmd | seq 1 50000 | wc -l" shell0).trace ∧
    (run_command env_stuck_after_exec "nosuchcmd | seq 1 50000 | wc -l" shell0).exit = none ∧
    (run_command env_stuck_after_exec "nosuchcmd | seq 1 50000 | wc -l" shell0).blocked =
      true :=
  ⟨rfl, fun _ => ⟨rfl, rfl⟩, by decide, by decide, by decide⟩

/-- C6, amended: `run_command` ends the interpreter exactly when a `pipe` or `fork`
call of the line fails: when the loop comes to a stage that is not `cd` and the
environment makes the `pipe` or the `fork` for it fail.  It then has printed the
`perror` diagnostic of that call and exits with the non-zero status `EXIT_FAILURE`.
No other failure of the line ends the interpreter: a parse error, a `cd` inside a
pipeline, a failed `chdir`, a redirection file that cannot be opened and a failed
`execvp` leave it running, and `run_command` returns to its caller provided every
`wait` it makes returns.  It stays blocked, neither ending nor returning, exactly
when the loop comes to a stage whose `wait` does not return. -/
theorem run_command_terminates_iff (env : Env) (cmd : String) (s : Shell) :
    ((run_command env cmd s).exit ≠ none ↔
      ∃ x ∈ (run_command env cmd s).trace, x.is_failed_call = true) ∧
    (∀ status, (run_command env cmd s).exit = some status →
      status = EXIT_FAILURE ∧ status ≠ 0 ∧
      ∃ pre x tag, (run_command env cmd s).trace =
          pre ++ [x, Event.perror tag, Event.terminate EXIT_FAILURE] ∧
        x.is_failed_call = true ∧ (tag = "pipe" ∨ tag = "fork") ∧
        ∀ y ∈ pre, y.is_failed_call = false) ∧
    (∀ x ∈ (run_command env cmd s).trace, x.is_failed_call = true →
      ∃ j, (x = Event.pipe j false ∧ env.pipe_ok j = false) ∨
        (x = Event.fork j false ∧ env.fork_ok j = false)) ∧
    ((∀ j, env.pipe_ok j = true ∧ env.fork_ok j = true) →
      (run_command env cmd s).exit = none) ∧
    ((run_command env cmd s).blocked = true → (run_command env cmd s).exit = none) ∧
    (∀ e, env.crack_pipeline cmd = (none, e) →
      (run_command env cmd s).exit = none ∧ (run_command env cmd s).blocked = false) ∧
    (∀ cl e, env.crack_pipeline cmd = (some cl, e) →
      ((run_command env cmd s).exit = some EXIT_FAILURE ↔
        ∃ k st, cl.stage.get? k = some st ∧ st.argv0 ≠ "cd" ∧ env.fatal cl.length k ∧
          ∀ j stj, j < k → cl.stage.get? j = some stj → stj.argv0 ≠ "cd" →
            env.passes cl.length j) ∧
      ((run_command env cmd s).blocked = true ↔
        ∃ k st, cl.stage.get? k = some st ∧ st.argv0 ≠ "cd" ∧ env.stuck cl.length k ∧
          ∀ j stj, j < k → cl.stage.get? j = some stj → stj.argv0 ≠ "cd" →
            env.passes cl.length j) ∧
      (((run_command env cmd s).exit = none ∧ (run_command env cmd s).blocked = false) ↔
        ∀ k st, cl.stage.get? k = some st → st.argv0 ≠ "cd" →
          (∀ j stj, j < k → cl.stage.get? j = some stj → stj.argv0 ≠ "cd" →
            env.passes cl.length j) → env.passes cl.length k)) ∧
    ((∀ j, env.pipe_ok j = true ∧ env.fork_ok j = true ∧ env.wait_returns j = true) →
      (run_command env cmd s).exit = none ∧ (run_command env cmd s).blocked = false) := by
  have key : ((run_command env cmd s).exit = none →
        ∀ x ∈ (run_command env cmd s).trace, x.is_failed_call = false) ∧
      (∀ status, (run_command env cmd s).exit = some status →
        status = EXIT_FAILURE ∧
        ∃ pre x tag, (run_command env cmd s).trace =
            pre ++ [x, Event.perror tag, Event.terminate EXIT_FAILURE] ∧
          x.is_failed_call = true ∧ (tag = "pipe" ∨ tag = "fork") ∧
          ∀ y ∈ pre, y.is_failed_call = false) ∧
      (∀ x ∈ (run_command env cmd s).trace, x.is_failed_call = true →
        ∃ j, (x = Event.pipe j false ∧ env.pipe_ok j = false) ∨
          (x = Event.fork j false ∧ env.fork_ok j = false)) := by
    rcases hparse : env.crack_pipeline cmd with ⟨_ | cl, e⟩
    · have hrun : run_command env cmd s = ⟨s, parse_diag e, none, false⟩ := by
        simp only [run_command, hparse]
      have herr : ∀ x ∈ parse_diag e, x.is_failed_call = false := by
        cases e <;> simp [parse_diag, Event.is_failed_call]
      rw [hrun]
      refine ⟨fun _ => herr, fun status h => (by cases h), ?_⟩
      intro x hx hw
      rw [herr x hx] at hw
      cases hw
    · obtain ⟨h1, h2⟩ := stage_loop_exit env cl.length cl.stage 0 STDIN_FILENO s
      have h3 := stage_loop_failed env cl.length cl.stage 0 STDIN_FILENO s
      have hmem := run_command_mem env cmd s cl e hparse
      have hexit := run_command_exit env cmd s cl e hparse
      refine ⟨fun hex x hx => ?_, fun status h => ?_, fun x hx hw => ?_⟩
      · rw [hexit] at hex
        rcases (hmem x).mp hx with hx | ⟨_, _, hx⟩
        · exact h1 hex x hx
        · subst hx
          rfl
      · rw [hexit] at h
        obtain ⟨hs, pre, x, tag, he, rest⟩ := h2 status h
        refine ⟨hs, pre, x, tag, ?_, rest⟩
        rw [run_command_parsed env cmd s cl e hparse, h]
        exact he
      · rcases (hmem x).mp hx with hx | ⟨_, _, hx⟩
        · exact h3 x hx hw
        · subst hx
          cases hw
  obtain ⟨k1, k2, k3⟩ := key
  have hfate : ∀ cl e, env.crack_pipeline cmd = (some cl, e) →
      ((run_command env cmd s).exit = some EXIT_FAILURE ↔
        env.comes_to cl.length (env.fatal cl.length) 0 cl.stage) ∧
      ((run_command env cmd s).exit = none ↔
        ¬ env.comes_to cl.length (env.fatal cl.length) 0 cl.stage) ∧
      ((run_command env cmd s).blocked = true ↔
        env.comes_to cl.length (env.stuck cl.length) 0 cl.stage) := by
    intro cl e hparse
    rw [run_command_exit env cmd s cl e hparse, run_command_blocked env cmd s cl e hparse]
    exact stage_loop_fate env cl.length cl.stage 0 STDIN_FILENO s
  have hreturns : ∀ cl e, env.crack_pipeline cmd = (some cl, e) →
      (((run_command env cmd s).exit = none ∧ (run_command env cmd s).blocked = false) ↔
        ∀ k st, cl.stage.get? k = some st → st.argv0 ≠ "cd" →
          (∀ j stj, j < k → cl.stage.get? j = some stj → stj.argv0 ≠ "cd" →
            env.passes cl.length j) → env.passes cl.length k) := by
    intro cl e hparse
    obtain ⟨_, hn, hb⟩ := hfate cl e hparse
    rw [hn, Bool.eq_false_iff, Ne, hb]
    simp only [Env.comes_to, Nat.zero_add]
    constructor
    · rintro ⟨hnf, hns⟩ k st hget hcd hbefore
      rcases (env_kind env cl.length k).1 with hf | hs | hp
      · exact absurd ⟨k, st, hget, hcd, hf, hbefore⟩ hnf
      · exact absurd ⟨k, st, hget, hcd, hs, hbefore⟩ hns
      · exact hp
    · intro hall
      constructor
      · rintro ⟨k, st, hget, hcd, hf, hbefore⟩
        exact (env_kind env cl.length k).2.2.1 ⟨hf, hall k st hget hcd hbefore⟩
      · rintro ⟨k, st, hget, hcd, hs, hbefore⟩
        exact (env_kind env cl.length k).2.2.2 ⟨hs, hall k st hget hcd hbefore⟩
  have hparse_err : ∀ e, env.crack_pipeline cmd = (none, e) →
      (run_command env cmd s).exit = none ∧ (run_command env cmd s).blocked = false := by
    intro e hparse
    have hrun : run_command env cmd s = ⟨s, parse_diag e, none, false⟩ := by
      simp only [run_command, hparse]
    rw [hrun]
    exact ⟨rfl, rfl⟩
  refine ⟨⟨?_, ?_⟩, ?_, k3, ?_, ?_, hparse_err, ?_, ?_⟩
  · intro hne
    cases hex : (run_command env cmd s).exit with
    | none => exact absurd hex hne
    | some status =>
      obtain ⟨_, pre, x, tag, he, hx, _⟩ := k2 status hex
      exact ⟨x, (by rw [he]; simp), hx⟩
  · rintro ⟨x, hx, hw⟩ hex
    rw [k1 hex x hx] at hw
    cases hw
  · intro status hex
    obtain ⟨hs, rest⟩ := k2 status hex
    exact ⟨hs, (by rw [hs]; decide), rest⟩
  · intro hok
    by_contra hne
    cases hex : (run_command env cmd s).exit with
    | none => exact hne hex
    | some status =>
      obtain ⟨_, pre, x, tag, he, hx, _⟩ := k2 status hex
      obtain ⟨j, hj | hj⟩ := k3 x (by rw [he]; simp) hx
      · rw [(hok j).1] at hj
        cases hj.2
      · rw [(hok j).2] at hj
        cases hj.2
  · intro hbl
    rcases hparse : env.crack_pipeline cmd with ⟨_ | cl, e⟩
    · exact (hparse_err e hparse).1
    · rw [run_command_blocked env cmd s cl e hparse] at hbl
      rw [run_command_exit env cmd s cl e hparse]
      exact stage_loop_blocked_exit env cl.length cl.stage 0 STDIN_FILENO s hbl
  · intro cl e hparse
    obtain ⟨hf, _, hb⟩ := hfate cl e hparse
    refine ⟨?_, ?_, hreturns cl e hparse⟩
    · rw [hf]
      simp only [Env.comes_to, Nat.zero_add]
    · rw [hb]
      simp only [Env.comes_to, Nat.zero_add]
  · intro hok
    rcases hparse : env.crack_pipeline cmd with ⟨_ | cl, e⟩
    · exact hparse_err e hparse
    · exact (hreturns cl e hparse).mpr
        (fun k _ _ _ _ => ⟨fun _ => (hok k).1, (hok k).2.1, (hok k).2.2⟩)

/-- Witness of C6 (amended): with `open`, `execvp` and `chdir` all failing and a `cd`
inside the pipeline, but `pipe` and `fork` succeeding and every `wait` returning,
`run_command` returns; and when the environment makes the `fork` for the second stage
of `ls | wc` fail, `run_command` ends the interpreter with `EXIT_FAILURE`. -/
theorem run_command_terminates_iff_witness :
    ((run_command env_fail "ls | cd" shell0).exit = none ∧
      (run_command env_fail "ls | cd" shell0).blocked = false) ∧
    (run_command env_nofork "ls | wc" shell0).exit = some EXIT_FAILURE :=
  ⟨(run_command_terminates_iff env_fail "ls | cd" shell0).2.2.2.2.2.2.2
      (fun _ => ⟨rfl, rfl, rfl⟩),
    ((run_command_terminates_iff env_nofork "ls | wc" shell0).2.2.2.2.2.2.1
      ⟨[⟨"ls", [], none, none⟩, ⟨"wc", [], none, none⟩]⟩ ClError.E_NONE rfl).1.mpr
      ⟨1, ⟨"wc", [], none, none⟩, rfl, by decide, Or.inr rfl,
        fun j _ hj _ _ =>
          match j, hj with
          | 0, _ => ⟨fun _ => rfl, rfl, rfl⟩⟩⟩

/-! ## The child process -/

theorem child_input_none (env : Env) (i : Nat) (st : clstage) (prev : Int) (t : FdTable) :
    child_input env i st prev t = none ↔
      ∃ p, st.inname = some p ∧ env.open_ok i p OFlags.O_RDONLY = false := by
  unfold child_input
  cases hin : st.inname with
  | none => split_ifs <;> simp
  | some p =>
    cases hok : env.open_ok i p OFlags.O_RDONLY with
    | false => simp [sys_open, hok]
    | true =>
      have hne : ((lowest_free t : Nat) : Int) ≠ -1 := by omega
      simp [sys_open, hok, hne]

/-- C7: the child branch always ends in a successful `execvp` or in `exit`, never by
falling through into the stage loop.  If the input-redirection file cannot be opened
the child prints `perror("child process open input file")` and exits with
`EXIT_FAILURE` without reaching `execvp`; if `execvp` fails it prints
`perror("execvp")` and exits with `EXIT_FAILURE`; every exit of the child is one of
these two, with a non-zero status, and the child execs only its own stage's `argv`. -/
theorem child_ends (env : Env) (i : Nat) (st : clstage) (prev fd0 fd1 : Int) (t : FdTable) :
    (child env i st prev fd0 fd1 t).fin ≠ none ∧
    (∀ p, st.inname = some p → env.open_ok i p OFlags.O_RDONLY = false →
      child env i st prev fd0 fd1 t =
        ⟨t, ["child process open input file"], some (ChildEnd.exited EXIT_FAILURE)⟩) ∧
    (env.execvp_ok i st.argv = false →
      (child env i st prev fd0 fd1 t).fin = some (ChildEnd.exited EXIT_FAILURE) ∧
      (child_input env i st prev t ≠ none →
        (child env i st prev fd0 fd1 t).perrors = ["execvp"])) ∧
    (∀ a, (child env i st prev fd0 fd1 t).fin = some (ChildEnd.execed a) →
      a = st.argv ∧ env.execvp_ok i st.argv = true ∧ child_input env i st prev t ≠ none ∧
        (child env i st prev fd0 fd1 t).perrors = []) ∧
    (∀ status, (child env i st prev fd0 fd1 t).fin = some (ChildEnd.exited status) →
      status = EXIT_FAILURE ∧ status ≠ 0 ∧
        ((child env i st prev fd0 fd1 t).perrors = ["child process open input file"] ∨
          (child env i st prev fd0 fd1 t).perrors = ["execvp"])) := by
  have hz : EXIT_FAILURE ≠ 0 := by decide
  refine ⟨?_, ?_, ?_, ?_, ?_⟩
  · unfold child
    cases child_input env i st prev t with
    | none => simp
    | some t1 => cases env.execvp_ok i st.argv <;> simp
  · intro p hp hok
    have hnone : child_input env i st prev t = none :=
      (child_input_none env i st prev t).mpr ⟨p, hp, hok⟩
    simp only [child, hnone]
  · intro hex
    unfold child
    cases child_input env i st prev t with
    | none => simp
    | some t1 => simp [hex]
  · intro a ha
    unfold child at ha ⊢
    cases hci : child_input env i st prev t with
    | none =>
      rw [hci] at ha
      simp at ha
    | some t1 =>
      rw [hci] at ha
      cases hex : env.execvp_ok i st.argv with
      | false =>
        rw [hex] at ha
        simp at ha
      | true =>
        rw [hex] at ha
        simp at ha
        simp [ha]
  · intro status hs
    unfold child at hs ⊢
    cases hci : child_input env i st prev t with
    | none =>
      rw [hci] at hs
      simp at hs
      simp [← hs, hz]
    | some t1 =>
      rw [hci] at hs
      cases hex : env.execvp_ok i st.argv with
      | false =>
        rw [hex] at hs
        simp at hs
        simp [← hs, hz]
      | true =>
        rw [hex] at hs
        simp at hs

/-- Witness of C7: a child whose input file cannot be opened. -/
theorem child_ends_witness :
    child env_fail 0 ⟨"sort", [], some "in", none⟩ STDIN_FILENO (-1) STDOUT_FILENO shell0.fds =
      ⟨shell0.fds, ["child process open input file"], some (ChildEnd.exited EXIT_FAILURE)⟩ :=
  (child_ends env_fail 0 ⟨"sort", [], some "in", none⟩ STDIN_FILENO (-1) STDOUT_FILENO
    shell0.fds).2.1 "in" rfl rfl

/-! ## The input loop -/

theorem process_input_reads_first (envs : Nat → Env) (n : Nat) (pending : List ReadResult)
    (s : Shell) : ∃ tr, (process_input envs n pending false false s).trace = Event.read :: tr := by
  cases pending with
  | nil => exact ⟨[], rfl⟩
  | cons r rest =>
    simp only [process_input, Bool.or_self, Bool.false_eq_true, if_false]
    cases r.line with
    | none =>
      simp only
      split_ifs <;> exact ⟨_, rfl⟩
    | some line =>
      simp only
      cases (run_command (envs n) line
        { s with sigint_received := s.sigint_received || r.sigint }).exit with
      | some status => exact ⟨_, rfl⟩
      | none =>
        simp only
        split_ifs <;> exact ⟨_, rfl⟩

/-- The iteration of the input loop at an interrupted read: when a read returns no
line with `errno == EINTR` and the SIGINT flag set, the iteration prints no
diagnostic, prints the prompt exactly when standard input and output are terminals
and the interpreter is not in batch mode, clears the flag and goes back to the loop
test with the indicators the read left on the stream; when the read left neither the
end-of-file nor the error indicator set, the loop goes on and the next thing it does
is read again. -/
theorem process_input_interrupt (envs : Nat → Env) (n : Nat) (r : ReadResult)
    (rest : List ReadResult) (s : Shell)
    (hline : r.line = none) (herrno : r.errno = EINTR)
    (hflag : (s.sigint_received || r.sigint) = true) :
    process_input envs n (r :: rest) false false s =
      ⟨(process_input envs (n + 1) rest r.feof r.ferror { s with sigint_received := false }).shell,
        Event.read :: (if interactive (envs n) s then [Event.prompt "\n8-P "] else []) ++
          (process_input envs (n + 1) rest r.feof r.ferror
            { s with sigint_received := false }).trace,
        (process_input envs (n + 1) rest r.feof r.ferror
          { s with sigint_received := false }).exit,
        (process_input envs (n + 1) rest r.feof r.ferror
          { s with sigint_received := false }).blocked⟩ ∧
    (r.feof = false → r.ferror = false →
      ∃ tr, (process_input envs (n + 1) rest r.feof r.ferror
        { s with sigint_received := false }).trace = Event.read :: tr) := by
  constructor
  · simp only [process_input, Bool.or_self, Bool.false_eq_true, if_false, hline, herrno, hflag,
      and_self, if_true, interactive]
  · intro h1 h2
    rw [h1, h2]
    exact process_input_reads_first envs (n + 1) rest _

/-- An interrupted read that leaves the stream indicators clear, followed by the line
`ls | wc`: the loop reads again. -/
theorem process_input_interrupt_clear :
    ∃ tr, (process_input (fun _ => env_ok) 1 [read_ls_wc] false false
      { shell0 with sigint_received := false }).trace = Event.read :: tr :=
  (process_input_interrupt (fun _ => env_ok) 0 read_interrupted_clear [read_ls_wc] shell0
    rfl rfl rfl).2 rfl rfl

theorem process_input_break (envs : Nat → Env) (n : Nat) (r : ReadResult)
    (rest : List ReadResult) (s : Shell) (hline : r.line = none)
    (hnot : ¬ (r.errno = EINTR ∧ (s.sigint_received || r.sigint) = true)) :
    process_input envs n (r :: rest) false false s =
      ⟨{ s with sigint_received := s.sigint_received || r.sigint },
        Event.read :: (if r.feof = true then [] else [Event.perror "readLongString"]), none,
        false⟩ := by
  simp only [process_input, Bool.or_self, Bool.false_eq_true, if_false, hline, hnot]
  cases r.feof <;> simp

/-- C9: when a read returns no line and it is not an interrupt with the flag set, the
loop stops at once: nothing more is read and no command is run; at end-of-input
nothing is printed, otherwise `perror("readLongString")` is; `process_input` returns
to `main`, and whenever `process_input` returns to `main` the program ends with
status 0 (after closing the script in batch mode). -/
theorem process_input_stop (envs : Nat → Env) (n : Nat) (r : ReadResult)
    (rest : List ReadResult) (s : Shell) (hline : r.line = none)
    (hnot : ¬ (r.errno = EINTR ∧ (s.sigint_received || r.sigint) = true)) :
    process_input envs n (r :: rest) false false s =
      ⟨{ s with sigint_received := s.sigint_received || r.sigint },
        Event.read :: (if r.feof = true then [] else [Event.perror "readLongString"]), none,
        false⟩ ∧
    process_input envs n [] false false s = ⟨s, [Event.read], none, false⟩ ∧
    (∀ b : Boot, b.sigaction_ok = true → b.argv.length = 1 →
      (process_input envs 0 b.reads false false ⟨b.fds, b.cwd, false, false⟩).exit = none →
      (process_input envs 0 b.reads false false ⟨b.fds, b.cwd, false, false⟩).blocked =
        false →
      (main envs b).exit = some 0) ∧
    (∀ b : Boot, b.sigaction_ok = true → b.argv.length = 2 → b.fopen_ok = true →
      (process_input envs 0 b.reads false false
        ⟨(sys_open true ((b.argv.get? 1).getD "") OFlags.O_RDONLY 0 b.fds).2, b.cwd,
          false, true⟩).exit = none →
      (process_input envs 0 b.reads false false
        ⟨(sys_open true ((b.argv.get? 1).getD "") OFlags.O_RDONLY 0 b.fds).2, b.cwd,
          false, true⟩).blocked = false →
      (main envs b).exit = some 0) ∧
    (∀ b : Boot, b.sigaction_ok = true → b.argv.length = 1 → b.reads = r :: rest →
      (main envs b).exit = some 0 ∧
      ((main envs b).trace.countP Event.is_diag = if r.feof = true then 0 else 1)) := by
  refine ⟨process_input_break envs n r rest s hline hnot, rfl, ?_, ?_, ?_⟩
  · intro b hs ha hex hbl
    simp only [main, hs, Bool.true_eq_false, Bool.false_eq_true, if_false, ha, if_true, hex,
      hbl]
  · intro b hs ha hf hex hbl
    have hne : (sys_open true ((b.argv.get? 1).getD "") OFlags.O_RDONLY 0 b.fds).1 ≠ -1 := by
      simp only [sys_open, if_true]
      omega
    simp only [main, hs, Bool.true_eq_false, Bool.false_eq_true, if_false, ha,
      OfNat.ofNat_ne_one, hf, hne, hex, hbl, if_true]
  · intro b hs ha hr
    have hnot0 : ¬ (r.errno = EINTR ∧ (false || r.sigint) = true) := by
      intro h
      apply hnot
      refine ⟨h.1, ?_⟩
      have h2 := h.2
      simp only [Bool.false_or] at h2
      simp [h2]
    have hb := process_input_break envs 0 r rest ⟨b.fds, b.cwd, false, false⟩ hline hnot0
    simp only [main, hs, Bool.true_eq_false, Bool.false_eq_true, if_false, ha, if_true, hr, hb]
    refine ⟨trivial, ?_⟩
    cases r.feof <;> split_ifs <;> simp [Event.is_diag]

/-- Witness of C9: a read that finds the end of the input while a line is still
listed after it. -/
theorem process_input_stop_witness :
    read_eof.line = none ∧
    process_input (fun _ => env_ok) 0 [read_eof, read_ls_wc] false false shell0 =
      ⟨shell0, [Event.read], none, false⟩ :=
  ⟨rfl, (process_input_stop (fun _ => env_ok) 0 read_eof [read_ls_wc] shell0 rfl
    (by decide)).1⟩

/-! ## Pipe descriptors closed on pipelines without `cd` -/

theorem stage_body_clean (env : Env) (len k : Nat) (st : clstage) (prev : Int) (s : Shell)
    (t0 : FdTable) (a0 a1 : Obj) (hcd : st.argv0 ≠ "cd") (hp : env.pipe_ok k = true)
    (hf : env.fork_ok k = true) (hwt : env.wait_returns k = true)
    (h0 : look t0 0 = some a0) (h1 : look t0 1 = some a1)
    (hk0 : k = 0 → prev = STDIN_FILENO)
    (hkp : 0 < k → ∃ r : Nat, prev = (r : Int) ∧ r ≠ 0 ∧ r ≠ 1 ∧ look t0 r = none ∧
      look s.fds r ≠ none)
    (hinv : ∀ n : Nat, (0 < k → prev ≠ (n : Int)) → look s.fds n = look t0 n) :
    ∃ evs p s1, stage_body env len k st prev s = (evs, Step.next p s1) ∧
      (k + 1 < len → ∃ r : Nat, p = (r : Int) ∧ r ≠ 0 ∧ r ≠ 1 ∧ look t0 r = none ∧
        look s1.fds r ≠ none ∧ ∀ n : Nat, n ≠ r → look s1.fds n = look t0 n) ∧
      (¬ (k + 1 < len) → ∀ n, look s1.fds n = look t0 n) := by
  have hprev : (prev = STDIN_FILENO ∧ k = 0) ∨
      (0 < k ∧ ∃ r : Nat, prev = (r : Int) ∧ r ≠ 0 ∧ r ≠ 1 ∧ look t0 r = none ∧
        look s.fds r ≠ none) := by
    rcases Nat.eq_zero_or_pos k with hz | hpos
    · exact Or.inl ⟨hk0 hz, hz⟩
    · exact Or.inr ⟨hpos, hkp hpos⟩
  have hs0 : look s.fds 0 = some a0 := by
    rw [← h0]
    apply hinv
    intro hpos
    obtain ⟨r, hr, hr0, _⟩ := hkp hpos
    rw [hr]
    omega
  have hs1 : look s.fds 1 = some a1 := by
    rw [← h1]
    apply hinv
    intro hpos
    obtain ⟨r, hr, _, hr1, _⟩ := hkp hpos
    rw [hr]
    omega
  by_cases hk : k < len - 1
  · obtain ⟨r, w, hpipe, hr0, hr1, hw0, hw1, hwr, hlr, hlw⟩ := sys_pipe_spec k s.fds a0 a1 hs0 hs1
    have hb := stage_body_run env len k st prev s hcd hp hf hwt (sys_pipe k s.fds)
      (by simp [hk])
    rw [hpipe] at hb
    simp only [hk, if_true] at hb
    have hwne : (w : Int) ≠ STDOUT_FILENO := by
      rw [STDOUT_FILENO]
      omega
    simp only [hwne, ne_eq, not_false_eq_true, if_true, sys_close_nat] at hb
    refine ⟨_, _, _, hb, ?_, fun h => absurd (by omega : k + 1 < len) h⟩
    intro _
    rcases hprev with ⟨hp0, hz⟩ | ⟨hpos, r1, hr, hr10, hr11, hl0, hl⟩
    · have hfree : ∀ n : Nat, look s.fds n = look t0 n := fun n => hinv n (by omega)
      refine ⟨r, rfl, hr0, hr1, by rw [← hfree r, hlr], ?_, ?_⟩
      · simp [hp0, look_put, Ne.symm hwr]
      · intro n hn
        by_cases hnw : n = w
        · subst hnw
          simp [look_put, ← hfree, hlw]
        · simp [hp0, look_put, hnw, hn, hfree]
    · subst hr
      have hne : ¬ ((r1 : Int) = STDIN_FILENO) := by
        rw [STDIN_FILENO]
        omega
      have hrr1 : r ≠ r1 := fun h => hl (by rw [← h, hlr])
      have hwr1 : w ≠ r1 := fun h => hl (by rw [← h, hlw])
      have hfree : ∀ n : Nat, n ≠ r1 → look s.fds n = look t0 n := by
        intro n hn
        apply hinv
        intro _
        omega
      simp only [hne, not_false_eq_true, if_true, sys_close_nat]
      refine ⟨r, rfl, hr0, hr1, by rw [← hfree r hrr1, hlr], ?_, ?_⟩
      · simp [look_put, Ne.symm hwr, hrr1]
      · intro n hn
        by_cases hnw : n = w
        · subst hnw
          simp [look_put, ← hfree n hwr1, hlw]
        · by_cases hnr1 : n = r1
          · subst hnr1
            simp [look_put, hnw, hl0]
          · simp [look_put, hnw, hnr1, hn, hfree n hnr1]
  · have hb := stage_body_run env len k st prev s hcd hp hf hwt (-1, STDOUT_FILENO, s.fds)
      (by simp [hk])
    simp only [hk, if_false, ne_eq, not_true_eq_false] at hb
    refine ⟨_, _, _, hb, fun h => absurd h (by omega), ?_⟩
    intro _ n
    rcases hprev with ⟨hp0, hz⟩ | ⟨hpos, r1, hr, hr10, hr11, hl0, hl⟩
    · simp only [hp0, not_true_eq_false, if_false]
      exact hinv n (by omega)
    · subst hr
      have hne : ¬ ((r1 : Int) = STDIN_FILENO) := by
        rw [STDIN_FILENO]
        omega
      simp only [hne, not_false_eq_true, if_true, sys_close_nat, look_put]
      by_cases hnr1 : n = r1
      · subst hnr1
        simp [hl0]
      · simp only [hnr1, if_false]
        apply hinv
        intro _
        omega

theorem stage_loop_clean (env : Env) (len : Nat) (t0 : FdTable) (a0 a1 : Obj)
    (hp : ∀ i, env.pipe_ok i = true) (hf : ∀ i, env.fork_ok i = true)
    (hwt : ∀ i, env.wait_returns i = true)
    (h0 : look t0 0 = some a0) (h1 : look t0 1 = some a1) :
    ∀ (rest : List clstage) (k : Nat) (prev : Int) (s : Shell),
      k + rest.length = len → (∀ st ∈ rest, st.argv0 ≠ "cd") → rest ≠ [] →
      (k = 0 → prev = STDIN_FILENO) →
      (0 < k → ∃ r : Nat, prev = (r : Int) ∧ r ≠ 0 ∧ r ≠ 1 ∧ look t0 r = none ∧
        look s.fds r ≠ none) →
      (∀ n : Nat, (0 < k → prev ≠ (n : Int)) → look s.fds n = look t0 n) →
      ∀ n, look (stage_loop env len k rest prev s).shell.fds n = look t0 n := by
  intro rest
  induction rest with
  | nil =>
    intro k prev s _ _ hne
    exact absurd rfl hne
  | cons st rest ih =>
    intro k prev s hlen hcd _ hk0 hkp hinv
    simp only [List.length_cons] at hlen
    obtain ⟨evs, p, s1, hb, hnext, hlast⟩ :=
      stage_body_clean env len k st prev s t0 a0 a1 (hcd st (List.mem_cons_self _ _)) (hp k)
        (hf k) (hwt k) h0 h1 hk0 hkp hinv
    rw [stage_loop_cons, hb]
    cases rest with
    | nil =>
      simp only [List.length_nil] at hlen
      exact hlast (by omega)
    | cons st1 rest1 =>
      simp only [List.length_cons] at hlen
      obtain ⟨r, hr, hr0, hr1, hl0, hl, hfree⟩ := hnext (by omega)
      refine ih (k + 1) p s1 (by simp only [List.length_cons]; omega)
        (fun x hx => hcd x (List.mem_cons_of_mem _ hx)) (by simp) (fun h => by omega)
        (fun _ => ⟨r, hr, hr0, hr1, hl0, hl⟩) ?_
      intro n hn
      apply hfree
      intro h
      apply hn (by omega)
      rw [hr, h]

/-- On a pipeline without `cd`, when `pipe` and `fork` succeed, every `wait` returns
and descriptors 0 and 1 are open, `run_command` returns with the descriptor table as
it found it: every pipe end it created is closed again. -/
theorem run_command_closes_pipes (env : Env) (cmd : String) (s : Shell) (cl : pipeline)
    (e : ClError) (a0 a1 : Obj) (hparse : env.crack_pipeline cmd = (some cl, e))
    (hcd : ∀ st ∈ cl.stage, st.argv0 ≠ "cd")
    (hp : ∀ i, env.pipe_ok i = true) (hf : ∀ i, env.fork_ok i = true)
    (hwt : ∀ i, env.wait_returns i = true)
    (h0 : look s.fds 0 = some a0) (h1 : look s.fds 1 = some a1) :
    (run_command env cmd s).exit = none ∧ (run_command env cmd s).blocked = false ∧
      ∀ n, look (run_command env cmd s).shell.fds n = look s.fds n := by
  obtain ⟨hex, hbl, _⟩ := stage_loop_counts env cl.length cl.length hp hf (fun j _ => hwt j)
    (fun h => absurd h (Nat.lt_irrefl _)) cl.stage 0 STDIN_FILENO s
    (by simp [pipeline.length]) (Nat.zero_le _) (Nat.le_refl _) hcd
  refine ⟨?_, ?_, ?_⟩
  · rw [run_command_exit env cmd s cl e hparse]
    exact hex
  · rw [run_command_blocked env cmd s cl e hparse, hbl]
    simp
  rw [run_command_shell env cmd s cl e hparse]
  by_cases hne : cl.stage = []
  · rw [hne]
    intro n
    rfl
  · exact stage_loop_clean env cl.length s.fds a0 a1 hp hf hwt h0 h1 cl.stage 0 STDIN_FILENO s
      (by simp [pipeline.length]) hcd hne (fun _ => rfl) (fun h => absurd h (by decide))
      (fun _ _ => rfl)

/-! ## Pipe descriptors left open -/

/-- C10 at the line `ls | cd`: `run_command` returns, the read end of the pipe made
for `ls` is still open in the interpreter (descriptor 3, which was closed before the
call), and no `close` of it was made: the `continue` of the `cd` stage skips the
`close(prev_fd)` that the parent branch of a following stage would have done. -/
theorem run_command_leaves_read_end_open :
    (run_command env_ok "ls | cd" shell0).exit = none ∧
    (run_command env_ok "ls | cd" shell0).blocked = false ∧
    look shell0.fds 3 = none ∧
    look (run_command env_ok "ls | cd" shell0).shell.fds 3 = some (Obj.pipe_read 0) ∧
    (run_command env_ok "ls | cd" shell0).trace.countP Event.is_close = 1 ∧
    Event.close 4 ∈ (run_command env_ok "ls | cd" shell0).trace ∧
    look (run_command env_ok "ls | wc" shell0).shell.fds 3 = none := by
  decide

/-! ## Every child is waited for at once -/

theorem reap_run_append (st : Reap) (a b : List Event) :
    reap_run st (a ++ b) = (reap_run st a).bind (fun s => reap_run s b) := by
  induction a generalizing st with
  | nil => rfl
  | cons e es ih =>
    simp only [List.cons_append, reap_run]
    cases reap_step st e with
    | none => rfl
    | some st1 => exact ih st1

theorem reap_step_plain (e : Event) (h : e.is_plain = true) :
    reap_step Reap.idle e = some Reap.idle := by
  cases e with
  | fork i ok =>
    cases ok with
    | false => rfl
    | true => cases h
  | spawn i c => cases h
  | wait => cases h
  | _ => rfl

theorem reap_run_plain (l : List Event) (h : ∀ x ∈ l, x.is_plain = true) :
    reap_run Reap.idle l = some Reap.idle := by
  induction l with
  | nil => rfl
  | cons e es ih =>
    simp only [reap_run, reap_step_plain e (h e (List.mem_cons_self _ _))]
    exact ih (fun x hx => h x (List.mem_cons_of_mem _ hx))

theorem reap_step_unreaped (st st2 : Reap) (e : Event) (es : List Event)
    (hs : reap_step st e = some st2) :
    unreaped st.pending (e :: es) = unreaped st2.pending es := by
  cases st with
  | idle =>
    cases e with
    | fork i ok =>
      cases ok with
      | false =>
        simp only [reap_step, Option.some.injEq] at hs
        subst hs
        rfl
      | true =>
        simp only [reap_step, Option.some.injEq] at hs
        subst hs
        rfl
    | spawn i c => cases hs
    | wait => cases hs
    | _ =>
      simp only [reap_step, Option.some.injEq] at hs
      subst hs
      rfl
  | forked i =>
    cases e with
    | spawn j c =>
      simp only [reap_step] at hs
      split_ifs at hs
      simp only [Option.some.injEq] at hs
      subst hs
      rfl
    | _ => cases hs
  | running i =>
    cases e with
    | wait =>
      simp only [reap_step, Option.some.injEq] at hs
      subst hs
      rfl
    | _ => cases hs

theorem reap_run_unreaped (t : List Event) :
    ∀ (st st1 : Reap), reap_run st t = some st1 → unreaped st.pending t = st1.pending := by
  induction t with
  | nil =>
    intro st st1 h
    simp only [reap_run, Option.some.injEq] at h
    rw [← h]
    rfl
  | cons e es ih =>
    intro st st1 h
    simp only [reap_run] at h
    cases hs : reap_step st e with
    | none =>
      rw [hs] at h
      cases h
    | some st2 =>
      rw [hs] at h
      rw [reap_step_unreaped st st2 e es hs]
      exact ih st2 st1 h

theorem handle_cd_plain (env : Env) (argv : List String) (argc : Nat) (s : Shell) :
    ∀ x ∈ (handle_cd_command env argv argc s).1, x.is_plain = true := by
  unfold handle_cd_command
  cases cd_dir env argv argc with
  | none => simp [Event.is_plain]
  | some d => cases h : env.chdir s.cwd d <;> simp [Event.is_plain, h]

theorem stage_body_reap (env : Env) (len i : Nat) (st : clstage) (prev : Int) (s : Shell) :
    reap_run Reap.idle (stage_body env len i st prev s).1 = some Reap.idle := by
  unfold stage_body
  split_ifs with h1 h2 h3 h4 h5
  · apply reap_run_plain
    intro x hx
    simp only [List.mem_cons] at hx
    rcases hx with hx | hx
    · subst hx
      rfl
    · exact handle_cd_plain env _ _ s x hx
  · rfl
  · rfl
  all_goals (dsimp only; (try split_ifs) <;> simp [reap_run, reap_step])

theorem stage_loop_reap (env : Env) (len : Nat) :
    ∀ (rest : List clstage) (k : Nat) (prev : Int) (s : Shell),
      reap_run Reap.idle (stage_loop env len k rest prev s).trace = some Reap.idle := by
  intro rest
  induction rest with
  | nil =>
    intro k prev s
    rfl
  | cons st rest ih =>
    intro k prev s
    rw [stage_loop_cons]
    have hb := stage_body_reap env len k st prev s
    rcases h : stage_body env len k st prev s with ⟨evs, step⟩
    rw [h] at hb
    cases step with
    | stop status s1 => exact hb
    | blocked s1 => exact hb
    | next p s1 =>
      simp only [reap_run_append]
      simp only at hb
      rw [hb]
      exact ih (k + 1) p s1

theorem run_command_reap (env : Env) (cmd : String) (s : Shell) :
    reap_run Reap.idle (run_command env cmd s).trace = some Reap.idle := by
  rcases hparse : env.crack_pipeline cmd with ⟨_ | cl, e⟩
  · have hrun : run_command env cmd s = ⟨s, parse_diag e, none, false⟩ := by
      simp only [run_command, hparse]
    rw [hrun]
    cases e <;> rfl
  · have hl := stage_loop_reap env cl.length cl.stage 0 STDIN_FILENO s
    rw [run_command_parsed env cmd s cl e hparse]
    cases (stage_loop env cl.length 0 cl.stage STDIN_FILENO s).exit with
    | none =>
      cases hb : (stage_loop env cl.length 0 cl.stage STDIN_FILENO s).blocked with
      | true => exact hl
      | false =>
        show reap_run Reap.idle
          ((stage_loop env cl.length 0 cl.stage STDIN_FILENO s).trace ++
            [Event.free_pipeline]) = some Reap.idle
        rw [reap_run_append, hl]
        rfl
    | some st => exact hl

theorem stage_body_blocked_tail (env : Env) (len i : Nat) (st : clstage) (prev : Int)
    (s : Shell) (evs : List Event) (s1 : Shell)
    (h : stage_body env len i st prev s = (evs, Step.blocked s1)) :
    ∃ pre c, evs = pre ++ [Event.fork i true, Event.spawn i c, Event.wait] := by
  unfold stage_body at h
  split_ifs at h with h1 h2 h3 h4 h5
  all_goals simp only [Prod.mk.injEq, reduceCtorEq, and_false] at h
  all_goals
    obtain ⟨h, _⟩ := h
    exact ⟨_, _, h.symm⟩

theorem stage_loop_blocked_tail (env : Env) (len : Nat) :
    ∀ (rest : List clstage) (k : Nat) (prev : Int) (s : Shell),
      (stage_loop env len k rest prev s).blocked = true →
        ∃ pre i c, (stage_loop env len k rest prev s).trace =
          pre ++ [Event.fork i true, Event.spawn i c, Event.wait] := by
  intro rest
  induction rest with
  | nil =>
    intro k prev s h
    cases h
  | cons st rest ih =>
    intro k prev s
    rw [stage_loop_cons]
    rcases h : stage_body env len k st prev s with ⟨evs, step⟩
    cases step with
    | stop status s1 =>
      intro hb
      cases hb
    | blocked s1 =>
      intro _
      obtain ⟨pre, c, he⟩ := stage_body_blocked_tail env len k st prev s evs s1 h
      exact ⟨pre, k, c, he⟩
    | next p s1 =>
      intro hb
      obtain ⟨pre, i, c, he⟩ := ih (k + 1) p s1 hb
      refine ⟨evs ++ pre, i, c, ?_⟩
      simp only [he, List.append_assoc]

theorem run_command_blocked_tail (env : Env) (cmd : String) (s : Shell)
    (hb : (run_command env cmd s).blocked = true) :
    ∃ pre i c, (run_command env cmd s).trace =
      pre ++ [Event.fork i true, Event.spawn i c, Event.wait] := by
  rcases hparse : env.crack_pipeline cmd with ⟨_ | cl, e⟩
  · have hrun : run_command env cmd s = ⟨s, parse_diag e, none, false⟩ := by
      simp only [run_command, hparse]
    rw [hrun] at hb
    cases hb
  · rw [run_command_blocked env cmd s cl e hparse] at hb
    have hex := stage_loop_blocked_exit env cl.length cl.stage 0 STDIN_FILENO s hb
    obtain ⟨pre, i, c, he⟩ := stage_loop_blocked_tail env cl.length cl.stage 0 STDIN_FILENO s hb
    refine ⟨pre, i, c, ?_⟩
    rw [run_command_parsed env cmd s cl e hparse, hex]
    simp only [hb, if_true]
    exact he

theorem reap_run_split (st st1 : Reap) (a b : List Event)
    (h : reap_run st (a ++ b) = some st1) :
    ∃ s1, reap_run st a = some s1 ∧ reap_run s1 b = some st1 := by
  rw [reap_run_append] at h
  cases ha : reap_run st a with
  | none =>
    rw [ha] at h
    cases h
  | some s1 =>
    rw [ha] at h
    exact ⟨s1, rfl, h⟩

theorem reap_step_to_forked (st : Reap) (e : Event) (i : Nat)
    (h : reap_step st e = some (Reap.forked i)) : st = Reap.idle ∧ e = Event.fork i true := by
  cases st with
  | idle =>
    cases e with
    | fork j ok =>
      cases ok with
      | false => simp [reap_step] at h
      | true =>
        simp only [reap_step, Option.some.injEq, Reap.forked.injEq] at h
        subst h
        exact ⟨rfl, rfl⟩
    | spawn j c => cases h
    | wait => cases h
    | _ => simp [reap_step] at h
  | forked j =>
    cases e with
    | spawn k c =>
      simp only [reap_step] at h
      split_ifs at h
      cases h
    | _ => cases h
  | running j =>
    cases e with
    | wait => simp [reap_step] at h
    | _ => cases h

theorem reap_step_to_running (st : Reap) (e : Event) (i : Nat)
    (h : reap_step st e = some (Reap.running i)) :
    st = Reap.forked i ∧ ∃ c, e = Event.spawn i c := by
  cases st with
  | idle =>
    cases e with
    | fork j ok => cases ok <;> simp [reap_step] at h
    | spawn j c => cases h
    | wait => cases h
    | _ => simp [reap_step] at h
  | forked j =>
    cases e with
    | spawn k c =>
      simp only [reap_step] at h
      split_ifs at h with hjk
      simp only [Option.some.injEq, Reap.running.injEq] at h
      subst h
      subst hjk
      exact ⟨rfl, c, rfl⟩
    | _ => cases h
  | running j =>
    cases e with
    | wait => simp [reap_step] at h
    | _ => cases h

theorem reap_run_to_running (pre : List Event) (i : Nat)
    (h : reap_run Reap.idle pre = some (Reap.running i)) :
    ∃ pre1 c, pre = pre1 ++ [Event.fork i true, Event.spawn i c] := by
  rcases List.eq_nil_or_concat pre with hnil | ⟨q, e, hq⟩
  · subst hnil
    cases h
  · rw [List.concat_eq_append] at hq
    subst hq
    obtain ⟨s1, hs1, he⟩ := reap_run_split _ _ q [e] h
    simp only [reap_run] at he
    cases hst : reap_step s1 e with
    | none =>
      rw [hst] at he
      cases he
    | some s2 =>
      rw [hst] at he
      simp only [Option.some.injEq] at he
      subst he
      obtain ⟨hs, c, hc⟩ := reap_step_to_running s1 e i hst
      subst hs
      subst hc
      rcases List.eq_nil_or_concat q with hnil | ⟨q1, e1, hq1⟩
      · subst hnil
        cases hs1
      · rw [List.concat_eq_append] at hq1
        subst hq1
        obtain ⟨s3, hs3, he1⟩ := reap_run_split _ _ q1 [e1] hs1
        simp only [reap_run] at he1
        cases hst1 : reap_step s3 e1 with
        | none =>
          rw [hst1] at he1
          cases he1
        | some s4 =>
          rw [hst1] at he1
          simp only [Option.some.injEq] at he1
          subst he1
          obtain ⟨_, hf⟩ := reap_step_to_forked s3 e1 i hst1
          subst hf
          exact ⟨q1, c, by simp⟩

theorem reap_after_fork (pre post : List Event) (i : Nat)
    (h : reap_run Reap.idle (pre ++ Event.fork i true :: post) = some Reap.idle) :
    ∃ c post1, post = Event.spawn i c :: Event.wait :: post1 := by
  obtain ⟨s1, _, h2⟩ := reap_run_split _ _ pre _ h
  cases s1 with
  | forked j => cases h2
  | running j => cases h2
  | idle =>
    simp only [reap_run, reap_step] at h2
    cases post with
    | nil => cases h2
    | cons e post1 =>
      cases e with
      | spawn j c =>
        simp only [reap_run, reap_step] at h2
        split_ifs at h2 with hij
        · subst hij
          cases post1 with
          | nil => cases h2
          | cons e2 post2 =>
            cases e2 with
            | wait => exact ⟨c, post2, rfl⟩
            | _ => cases h2
      | _ => cases h2

theorem reap_before_wait (pre post : List Event)
    (h : reap_run Reap.idle (pre ++ Event.wait :: post) = some Reap.idle) :
    ∃ i c pre1, pre = pre1 ++ [Event.fork i true, Event.spawn i c] ∧ unreaped [] pre = [i] := by
  obtain ⟨s1, h1, h2⟩ := reap_run_split _ _ pre _ h
  cases s1 with
  | idle => cases h2
  | forked j => cases h2
  | running j =>
    obtain ⟨pre1, c, hp⟩ := reap_run_to_running pre j h1
    exact ⟨j, c, pre1, hp, reap_run_unreaped pre Reap.idle (Reap.running j) h1⟩

theorem reap_prefix (pre post : List Event)
    (h : reap_run Reap.idle (pre ++ post) = some Reap.idle) :
    (unreaped [] pre).length ≤ 1 := by
  obtain ⟨s1, h1, _⟩ := reap_run_split _ _ pre _ h
  have := reap_run_unreaped pre Reap.idle s1 h1
  simp only [Reap.pending] at this
  rw [this]
  cases s1 <;> simp [Reap.pending]

/-- C11: in every execution of `run_command` a successful `fork` is followed at once
by the run of that child and by the `wait` of the interpreter, before any other
action of the interpreter; at every moment of the call at most one child is forked
and not yet waited for; when a `wait` is made the only such child is the one just
forked; and at the end of the call (return or exit of the interpreter) no child is
left un-waited, so there were as many waits as successful forks.  When the call
stays blocked, it is in the `wait` made for the child just forked, the last event of
the run. -/
theorem run_command_waits (env : Env) (cmd : String) (s : Shell) :
    (∀ pre post i, (run_command env cmd s).trace = pre ++ Event.fork i true :: post →
      ∃ c post1, post = Event.spawn i c :: Event.wait :: post1) ∧
    (∀ pre post, (run_command env cmd s).trace = pre ++ post → (unreaped [] pre).length ≤ 1) ∧
    (∀ pre post, (run_command env cmd s).trace = pre ++ Event.wait :: post →
      ∃ i c pre1, pre = pre1 ++ [Event.fork i true, Event.spawn i c] ∧
        unreaped [] pre = [i]) ∧
    unreaped [] (run_command env cmd s).trace = [] ∧
    ((run_command env cmd s).blocked = true →
      ∃ pre i c, (run_command env cmd s).trace =
        pre ++ [Event.fork i true, Event.spawn i c, Event.wait]) := by
  have h := run_command_reap env cmd s
  refine ⟨?_, ?_, ?_, ?_, run_command_blocked_tail env cmd s⟩
  · intro pre post i ht
    rw [ht] at h
    exact reap_after_fork pre post i h
  · intro pre post ht
    rw [ht] at h
    exact reap_prefix pre post h
  · intro pre post ht
    rw [ht] at h
    exact reap_before_wait pre post h
  · exact reap_run_unreaped _ Reap.idle Reap.idle h

/-- Witness of C11: the line `ls | wc`. -/
theorem run_command_waits_witness :
    unreaped [] (run_command env_ok "ls | wc" shell0).trace = [] :=
  (run_command_waits env_ok "ls | wc" shell0).2.2.2.1

/-! ## An output file that cannot be opened -/

theorem look_sys_close (t : FdTable) (fd : Int) (n : Nat) :
    look (sys_close t fd) n = if fd = (n : Int) then none else look t n := by
  unfold sys_close
  by_cases h : fd < 0
  · have : fd ≠ (n : Int) := by omega
    simp [h, this]
  · have : (n = fd.toNat) ↔ fd = (n : Int) := by omega
    simp only [h, if_false, look_put, this]

theorem child_output_open_fails (env : Env) (i : Nat) (st : clstage) (fd1 : Int) (t : FdTable)
    (p : String) (hout : st.outname = some p)
    (hfail : env.open_ok i p OFlags.O_WRONLY_CREAT_TRUNC = false) :
    child_output env i st fd1 t = t := by
  simp [child_output, hout, sys_open, hfail, sys_dup2, fd_look, sys_close]

theorem child_input_keeps_stdout (env : Env) (i : Nat) (st : clstage) (prev : Int)
    (t t1 : FdTable) (h : child_input env i st prev t = some t1) : look t1 1 = look t 1 := by
  unfold child_input at h
  cases hin : st.inname with
  | some p =>
    rw [hin] at h
    simp only [sys_open] at h
    cases hok : env.open_ok i p OFlags.O_RDONLY with
    | false =>
      rw [hok] at h
      simp at h
    | true =>
      rw [hok] at h
      have hne : ((lowest_free t : Nat) : Int) ≠ -1 := by omega
      simp only [if_true, hne, if_false, Option.some.injEq] at h
      rw [sys_dup2_stdin _ _ (Obj.file p OFlags.O_RDONLY 0) (by simp [look_put]),
        sys_close_nat] at h
      rw [← h]
      simp only [look_put]
      by_cases hf : 1 = lowest_free t
      · simp only [hf, if_true]
        exact (look_lowest_free t).symm
      · simp [hf]
  | none =>
    rw [hin] at h
    simp only at h
    split_ifs at h with hp
    · simp only [Option.some.injEq] at h
      rw [← h]
      unfold sys_dup2
      cases fd_look t prev with
      | none => rfl
      | some o => simp [STDIN_FILENO, look_put]
    · simp only [Option.some.injEq] at h
      rw [h]

theorem child_after_output_fails (env : Env) (i : Nat) (st : clstage) (prev fd0 fd1 : Int)
    (t : FdTable) (p : String) (hout : st.outname = some p)
    (hfail : env.open_ok i p OFlags.O_WRONLY_CREAT_TRUNC = false)
    (hin : child_input env i st prev t ≠ none) :
    (child env i st prev fd0 fd1 t).fin =
      (if env.execvp_ok i st.argv = true then some (ChildEnd.execed st.argv)
        else some (ChildEnd.exited EXIT_FAILURE)) ∧
    (child env i st prev fd0 fd1 t).perrors =
      (if env.execvp_ok i st.argv = true then [] else ["execvp"]) ∧
    (fd0 ≠ STDOUT_FILENO → look (child env i st prev fd0 fd1 t).fds 1 = look t 1) := by
  cases hci : child_input env i st prev t with
  | none => exact absurd hci hin
  | some t1 =>
    have hk := child_input_keeps_stdout env i st prev t t1 hci
    have ho := child_output_open_fails env i st fd1 t1 p hout hfail
    simp only [child, hci, ho]
    refine ⟨?_, ?_, ?_⟩
    · cases env.execvp_ok i st.argv <;> simp
    · cases env.execvp_ok i st.argv <;> simp
    · intro hfd0
      have hl : look (if fd0 ≠ -1 then sys_close t1 fd0 else t1) 1 = look t 1 := by
        split_ifs
        · rw [look_sys_close]
          have : ¬ fd0 = ((1 : Nat) : Int) := by
            rw [STDOUT_FILENO] at hfd0
            simpa using hfd0
          rw [if_neg this, hk]
        · exact hk
      cases env.execvp_ok i st.argv <;> simpa using hl

theorem stage_body_forked_blocked (env : Env) (len i : Nat) (st : clstage) (prev : Int)
    (s : Shell) (hcd : st.argv0 ≠ "cd") (hp : ¬ (i < len - 1 ∧ env.pipe_ok i = false))
    (hf : env.fork_ok i = true) (hwt : env.wait_returns i = false) (P : Int × Int × FdTable)
    (hP : P = if i < len - 1 then sys_pipe i s.fds else (-1, STDOUT_FILENO, s.fds)) :
    stage_body env len i st prev s =
      ((if i < len - 1 then [Event.pipe i true] else []) ++
          [Event.fork i true, Event.spawn i (child env i st prev P.1 P.2.1 P.2.2), Event.wait],
        Step.blocked { s with fds := P.2.2 }) := by
  subst hP
  unfold stage_body
  simp only [hcd, hp, hf, hwt, if_false, if_true]
  by_cases h : i < len - 1
  · simp only [h, if_true]
  · simp only [h, if_false]

theorem stage_body_forked (env : Env) (len i : Nat) (st : clstage) (prev : Int) (s : Shell)
    (hcd : st.argv0 ≠ "cd") (hp : ¬ (i < len - 1 ∧ env.pipe_ok i = false))
    (hf : env.fork_ok i = true) (hwt : env.wait_returns i = true) (P : Int × Int × FdTable)
    (hP : P = if i < len - 1 then sys_pipe i s.fds else (-1, STDOUT_FILENO, s.fds)) :
    stage_body env len i st prev s =
      ((if i < len - 1 then [Event.pipe i true] else []) ++
          [Event.fork i true, Event.spawn i (child env i st prev P.1 P.2.1 P.2.2), Event.wait] ++
          (if prev ≠ STDIN_FILENO then [Event.close prev] else []) ++
          (if P.2.1 ≠ STDOUT_FILENO then [Event.close P.2.1] else []),
        Step.next P.1 { s with fds :=
          (if P.2.1 ≠ STDOUT_FILENO then
            sys_close (if prev ≠ STDIN_FILENO then sys_close P.2.2 prev else P.2.2) P.2.1
          else (if prev ≠ STDIN_FILENO then sys_close P.2.2 prev else P.2.2)) }) := by
  subst hP
  unfold stage_body
  simp only [hcd, hp, hf, hwt, if_false, if_true, Bool.true_eq_false]
  by_cases h : i < len - 1
  · simp only [h, if_true]
  · simp only [h, if_false]

theorem handle_cd_fds (env : Env) (argv : List String) (argc : Nat) (s : Shell) :
    (handle_cd_command env argv argc s).2.fds = s.fds := by
  unfold handle_cd_command
  cases cd_dir env argv argc with
  | none => rfl
  | some d => cases h : env.chdir s.cwd d <;> simp [h]

theorem stage_body_stdout (env : Env) (len k : Nat) (st : clstage) (prev : Int) (s : Shell)
    (a0 a1 : Obj) (h0 : look s.fds 0 = some a0) (h1 : look s.fds 1 = some a1)
    (hprev : prev ≠ STDOUT_FILENO) :
    (∀ j c, Event.spawn j c ∈ (stage_body env len k st prev s).1 →
      j = k ∧ ∃ fd0 fd1 T, c = child env k st prev fd0 fd1 T ∧ look T 1 = some a1 ∧
        fd0 ≠ STDOUT_FILENO) ∧
    (∀ p s1, (stage_body env len k st prev s).2 = Step.next p s1 →
      look s1.fds 0 = some a0 ∧ look s1.fds 1 = some a1 ∧ p ≠ STDOUT_FILENO) := by
  by_cases hcd : st.argv0 = "cd"
  · by_cases hlen : len = 1
    · subst hlen
      rw [stage_body_cd_sole env k st prev s hcd]
      constructor
      · intro j c hm
        simp only [List.mem_cons, reduceCtorEq, false_or] at hm
        have := handle_cd_no_work env st.argv st.argc s j _ hm
        simp [Event.works_for] at this
      · intro p s1 hs
        simp only [Step.next.injEq] at hs
        obtain ⟨hp, hs⟩ := hs
        rw [← hs, ← hp, handle_cd_fds]
        exact ⟨h0, h1, hprev⟩
    · rw [stage_body_cd_pipeline env len k st prev s hcd hlen]
      constructor
      · intro j c hm
        simp [cd_in_pipeline] at hm
      · intro p s1 hs
        simp only [Step.next.injEq] at hs
        obtain ⟨hp, hs⟩ := hs
        rw [← hs, ← hp]
        exact ⟨h0, h1, hprev⟩
  · by_cases hp : k < len - 1 ∧ env.pipe_ok k = false
    · have hb : stage_body env len k st prev s =
          ([Event.pipe k false, Event.perror "pipe", Event.terminate EXIT_FAILURE],
            Step.stop EXIT_FAILURE s) := by
        simp only [stage_body, hcd, hp, and_self, if_true, if_false]
      rw [hb]
      exact ⟨fun j c hm => by simp at hm, fun p s1 hs => by cases hs⟩
    · by_cases hf : env.fork_ok k = true
      · by_cases hwt : env.wait_returns k = true
        · have hclose : ∀ (T : FdTable) (fd1 : Int), look T 0 = some a0 → look T 1 = some a1 →
              fd1 ≠ 0 →
              look (if fd1 ≠ STDOUT_FILENO then
                  sys_close (if prev ≠ STDIN_FILENO then sys_close T prev else T) fd1
                else (if prev ≠ STDIN_FILENO then sys_close T prev else T)) 0 = some a0 ∧
              look (if fd1 ≠ STDOUT_FILENO then
                  sys_close (if prev ≠ STDIN_FILENO then sys_close T prev else T) fd1
                else (if prev ≠ STDIN_FILENO then sys_close T prev else T)) 1 = some a1 := by
            intro T fd1 hT0 hT1 hfd1
            have hp0 : prev ≠ STDIN_FILENO → ¬ prev = ((0 : Nat) : Int) := by
              intro h
              simpa [STDIN_FILENO] using h
            have hp1 : ¬ prev = ((1 : Nat) : Int) := by
              simpa [STDOUT_FILENO] using hprev
            have hf0 : ¬ fd1 = ((0 : Nat) : Int) := by simpa using hfd1
            have hf1 : fd1 ≠ STDOUT_FILENO → ¬ fd1 = ((1 : Nat) : Int) := by
              intro h
              simpa [STDOUT_FILENO] using h
            constructor
            · split_ifs with ha hb
              · rw [look_sys_close, if_neg hf0, look_sys_close, if_neg (hp0 hb), hT0]
              · rw [look_sys_close, if_neg hf0, hT0]
              · rw [look_sys_close, if_neg (hp0 ‹_›), hT0]
              · exact hT0
            · split_ifs with ha hb
              · rw [look_sys_close, if_neg (hf1 ha), look_sys_close, if_neg hp1, hT1]
              · rw [look_sys_close, if_neg (hf1 ha), hT1]
              · rw [look_sys_close, if_neg hp1, hT1]
              · exact hT1
          by_cases hk : k < len - 1
          · obtain ⟨r, w, hpipe, hr0, hr1, hw0, hw1, hwr, hlr, hlw⟩ :=
              sys_pipe_spec k s.fds a0 a1 h0 h1
            have hb := stage_body_forked env len k st prev s hcd hp hf hwt (sys_pipe k s.fds)
              (by simp [hk])
            rw [hpipe] at hb
            simp only [hk, if_true] at hb
            have hT0 : look (put (put s.fds r (some (Obj.pipe_read k))) w
                (some (Obj.pipe_write k))) 0 = some a0 := by
              simp [look_put, Ne.symm hr0, Ne.symm hw0, h0]
            have hT1 : look (put (put s.fds r (some (Obj.pipe_read k))) w
                (some (Obj.pipe_write k))) 1 = some a1 := by
              simp [look_put, Ne.symm hr1, Ne.symm hw1, h1]
            have hrne : (r : Int) ≠ STDOUT_FILENO := by
              rw [STDOUT_FILENO]
              omega
            rw [hb]
            constructor
            · intro j c hm
              simp only [List.mem_append, List.mem_cons, List.mem_singleton, reduceCtorEq,
                Event.spawn.injEq, false_or, or_false, List.not_mem_nil] at hm
              rcases hm with (hm | hm) | hm
              · exact ⟨hm.1, _, _, _, hm.2, hT1, hrne⟩
              · split_ifs at hm <;> simp at hm
              · split_ifs at hm <;> simp at hm
            · intro p s1 hs
              simp only [Step.next.injEq] at hs
              obtain ⟨hp1, hs1⟩ := hs
              rw [← hs1, ← hp1]
              obtain ⟨c0, c1⟩ := hclose _ (w : Int) hT0 hT1 (by omega)
              exact ⟨c0, c1, hrne⟩
          · have hb := stage_body_forked env len k st prev s hcd hp hf hwt
              (-1, STDOUT_FILENO, s.fds)
              (by simp [hk])
            simp only [hk, if_false] at hb
            rw [hb]
            constructor
            · intro j c hm
              simp only [List.mem_append, List.mem_cons, List.mem_singleton, reduceCtorEq,
                Event.spawn.injEq, false_or, or_false, List.not_mem_nil, List.nil_append] at hm
              rcases hm with (hm | hm) | hm
              · exact ⟨hm.1, _, _, _, hm.2, h1, by decide⟩
              · split_ifs at hm <;> simp at hm
              · split_ifs at hm <;> simp at hm
            · intro p s1 hs
              simp only [Step.next.injEq] at hs
              obtain ⟨hp1, hs1⟩ := hs
              rw [← hs1, ← hp1]
              obtain ⟨c0, c1⟩ := hclose s.fds STDOUT_FILENO h0 h1 (by decide)
              exact ⟨c0, c1, by decide⟩
        · have hwf : env.wait_returns k = false := by simpa using hwt
          by_cases hk : k < len - 1
          · obtain ⟨r, w, hpipe, hr0, hr1, hw0, hw1, hwr, hlr, hlw⟩ :=
              sys_pipe_spec k s.fds a0 a1 h0 h1
            have hb := stage_body_forked_blocked env len k st prev s hcd hp hf hwf
              (sys_pipe k s.fds) (by simp [hk])
            rw [hpipe] at hb
            simp only [hk, if_true] at hb
            have hT1 : look (put (put s.fds r (some (Obj.pipe_read k))) w
                (some (Obj.pipe_write k))) 1 = some a1 := by
              simp [look_put, Ne.symm hr1, Ne.symm hw1, h1]
            have hrne : (r : Int) ≠ STDOUT_FILENO := by
              rw [STDOUT_FILENO]
              omega
            rw [hb]
            constructor
            · intro j c hm
              simp only [List.mem_append, List.mem_cons, List.mem_singleton, reduceCtorEq,
                Event.spawn.injEq, false_or, or_false, List.not_mem_nil] at hm
              exact ⟨hm.1, _, _, _, hm.2, hT1, hrne⟩
            · intro p s1 hs
              cases hs
          · have hb := stage_body_forked_blocked env len k st prev s hcd hp hf hwf
              (-1, STDOUT_FILENO, s.fds) (by simp [hk])
            simp only [hk, if_false] at hb
            rw [hb]
            constructor
            · intro j c hm
              simp only [List.mem_append, List.mem_cons, List.mem_singleton, reduceCtorEq,
                Event.spawn.injEq, false_or, or_false, List.not_mem_nil, List.nil_append] at hm
              exact ⟨hm.1, _, _, _, hm.2, h1, by decide⟩
            · intro p s1 hs
              cases hs
      · have hf1 : env.fork_ok k = false := by simpa using hf
        obtain ⟨pe, t1, hb⟩ : ∃ pe t1, stage_body env len k st prev s =
            (pe ++ [Event.fork k false, Event.perror "fork", Event.terminate EXIT_FAILURE],
              Step.stop EXIT_FAILURE t1) ∧ ∀ x ∈ pe, x.is_pipe = true := by
          unfold stage_body
          simp only [hcd, hp, hf1, if_false, Bool.false_eq_true]
          exact ⟨_, _, rfl, by split_ifs <;> simp [Event.is_pipe]⟩
        rw [hb.1]
        constructor
        · intro j c hm
          simp only [List.mem_append, List.mem_cons, List.mem_singleton, reduceCtorEq,
            or_false, List.not_mem_nil] at hm
          have := hb.2 _ hm
          simp [Event.is_pipe] at this
        · intro p s1 hs
          cases hs

theorem stage_loop_stdout (env : Env) (len : Nat) (a0 a1 : Obj) :
    ∀ (rest : List clstage) (k : Nat) (prev : Int) (s : Shell),
      look s.fds 0 = some a0 → look s.fds 1 = some a1 → prev ≠ STDOUT_FILENO →
      ∀ j c, Event.spawn j c ∈ (stage_loop env len k rest prev s).trace →
        k ≤ j ∧ ∃ st prev1 fd0 fd1 T, rest.get? (j - k) = some st ∧
          c = child env j st prev1 fd0 fd1 T ∧ look T 1 = some a1 ∧ fd0 ≠ STDOUT_FILENO := by
  intro rest
  induction rest with
  | nil =>
    intro k prev s _ _ _ j c hm
    simp [stage_loop] at hm
  | cons st rest ih =>
    intro k prev s h0 h1 hprev j c hm
    rw [stage_loop_cons] at hm
    obtain ⟨hsp, hnext⟩ := stage_body_stdout env len k st prev s a0 a1 h0 h1 hprev
    rcases h : stage_body env len k st prev s with ⟨evs, step⟩
    rw [h] at hm hsp hnext
    have hhead : Event.spawn j c ∈ evs →
        k ≤ j ∧ ∃ st1 prev1 fd0 fd1 T, (st :: rest).get? (j - k) = some st1 ∧
          c = child env j st1 prev1 fd0 fd1 T ∧ look T 1 = some a1 ∧ fd0 ≠ STDOUT_FILENO := by
      intro hmem
      obtain ⟨hj, fd0, fd1, T, hc, hT, hfd⟩ := hsp j c hmem
      subst hj
      exact ⟨le_refl _, st, prev, fd0, fd1, T, by simp, hc, hT, hfd⟩
    cases step with
    | stop status s1 => exact hhead hm
    | blocked s1 => exact hhead hm
    | next p s1 =>
      simp only [List.mem_append] at hm
      rcases hm with hm | hm
      · exact hhead hm
      · obtain ⟨n0, n1, np⟩ := hnext p s1 rfl
        obtain ⟨hk, st1, prev1, fd0, fd1, T, hg, hc, hT, hfd⟩ := ih (k + 1) p s1 n0 n1 np j c hm
        refine ⟨by omega, st1, prev1, fd0, fd1, T, ?_, hc, hT, hfd⟩
        have : j - k = (j - (k + 1)) + 1 := by omega
        rw [this]
        simpa using hg

/-- C12: in the child of a stage whose output-redirection file cannot be opened, the
output wiring changes nothing (the result of `open` is used unchecked); if the child
got past its input wiring it prints nothing for the failed open, goes on to `execvp`
and so executes the program whenever `execvp` succeeds, and its descriptor 1 is what
the interpreter had as descriptor 1 at the `fork`, not the write end of the stage's
pipe.  In a run of `run_command` with descriptors 0 and 1 open, every process
spawned for such a stage has the interpreter's standard output as its standard
output, also when the stage is not the last (and a process is spawned for the stage
when the pipeline has no `cd`, `pipe` and `fork` succeed and the waits for the earlier
stages return).  An input-redirection file that cannot
be opened instead makes the child print a diagnostic and exit before `execvp`. -/
theorem child_output_unchecked (env : Env) (i : Nat) (st : clstage) (p : String)
    (hout : st.outname = some p)
    (hfail : env.open_ok i p OFlags.O_WRONLY_CREAT_TRUNC = false) :
    (∀ (prev fd0 fd1 : Int) (t : FdTable),
      child_output env i st fd1 t = t ∧
      (child_input env i st prev t ≠ none →
        (child env i st prev fd0 fd1 t).fin =
          (if env.execvp_ok i st.argv = true then some (ChildEnd.execed st.argv)
            else some (ChildEnd.exited EXIT_FAILURE)) ∧
        (child env i st prev fd0 fd1 t).perrors =
          (if env.execvp_ok i st.argv = true then [] else ["execvp"]) ∧
        (fd0 ≠ STDOUT_FILENO → look (child env i st prev fd0 fd1 t).fds 1 = look t 1)) ∧
      (∀ q, st.inname = some q → env.open_ok i q OFlags.O_RDONLY = false →
        child env i st prev fd0 fd1 t =
          ⟨t, ["child process open input file"], some (ChildEnd.exited EXIT_FAILURE)⟩)) ∧
    (∀ (cmd : String) (s : Shell) (cl : pipeline) (e : ClError) (a0 a1 : Obj),
      env.crack_pipeline cmd = (some cl, e) → cl.stage.get? i = some st →
      look s.fds 0 = some a0 → look s.fds 1 = some a1 →
      (∀ q, st.inname = some q → env.open_ok i q OFlags.O_RDONLY = true) →
      (∀ c, Event.spawn i c ∈ (run_command env cmd s).trace →
        look c.fds 1 = look s.fds 1 ∧
        c.fin = (if env.execvp_ok i st.argv = true then some (ChildEnd.execed st.argv)
            else some (ChildEnd.exited EXIT_FAILURE)) ∧
        c.perrors = (if env.execvp_ok i st.argv = true then [] else ["execvp"])) ∧
      ((∀ st1 ∈ cl.stage, st1.argv0 ≠ "cd") → (∀ j, env.pipe_ok j = true) →
        (∀ j, env.fork_ok j = true) → (∀ j, j < i → env.wait_returns j = true) →
        ∃ c, Event.spawn i c ∈ (run_command env cmd s).trace)) := by
  constructor
  · intro prev fd0 fd1 t
    refine ⟨child_output_open_fails env i st fd1 t p hout hfail,
      child_after_output_fails env i st prev fd0 fd1 t p hout hfail, ?_⟩
    intro q hq hqf
    have hnone : child_input env i st prev t = none :=
      (child_input_none env i st prev t).mpr ⟨q, hq, hqf⟩
    simp only [child, hnone]
  · intro cmd s cl e a0 a1 hparse hst h0 h1 hin
    constructor
    · intro c hm
      rw [run_command_mem env cmd s cl e hparse] at hm
      have hm1 : Event.spawn i c ∈ (stage_loop env cl.length 0 cl.stage STDIN_FILENO s).trace := by
        rcases hm with hm | ⟨_, _, hm⟩
        · exact hm
        · cases hm
      obtain ⟨_, st1, prev1, fd0, fd1, T, hg, hc, hT, hfd⟩ :=
        stage_loop_stdout env cl.length a0 a1 cl.stage 0 STDIN_FILENO s h0 h1 (by decide) i c hm1
      simp only [Nat.sub_zero, hst, Option.some.injEq] at hg
      subst hg
      have hci : child_input env i st prev1 T ≠ none := by
        intro hnone
        obtain ⟨q, hq, hqf⟩ := (child_input_none env i st prev1 T).mp hnone
        rw [hin q hq] at hqf
        cases hqf
      obtain ⟨c1, c2, c3⟩ := child_after_output_fails env i st prev1 fd0 fd1 T p hout hfail hci
      rw [hc]
      exact ⟨by rw [c3 hfd, hT, h1], c1, c2⟩
    · intro hcd hp hf hwait
      have hi : i < cl.length := (List.get?_eq_some.mp hst).1
      obtain ⟨k, hk, hlow, hat⟩ := first_stuck env cl.length
      have hik : i ≤ k := by
        by_contra hlt
        have h2 := hwait k (by omega)
        rw [hat (by omega)] at h2
        cases h2
      obtain ⟨_, _, _, _, h4⟩ := stage_loop_counts env cl.length k hp hf hlow hat cl.stage 0
        STDIN_FILENO s (by simp [pipeline.length]) (Nat.zero_le _) hk hcd
      have hc := (h4 i).2.2
      rw [if_pos ⟨Nat.zero_le _, by omega⟩] at hc
      have hpos : 0 < (stage_loop env cl.length 0 cl.stage STDIN_FILENO s).trace.countP
          (Event.is_spawn_of i) := by omega
      obtain ⟨x, hx, hxs⟩ := List.countP_pos_iff.mp hpos
      cases x with
      | spawn j c =>
        simp only [Event.is_spawn_of, decide_eq_true_eq] at hxs
        subst hxs
        exact ⟨c, (run_command_mem env cmd s cl e hparse _).mpr (Or.inl hx)⟩
      | _ => simp [Event.is_spawn_of] at hxs

/-- Witness of C12: the first stage of `ls > out | wc` when `out` cannot be opened. -/
theorem child_output_unchecked_witness :
    ∃ c, Event.spawn 0 c ∈ (run_command env_noout "ls > out | wc" shell0).trace ∧
      look c.fds 1 = some (Obj.inherited 1) ∧
      c.fin = some (ChildEnd.execed ["ls"]) ∧ c.perrors = [] :=
  have h := (child_output_unchecked env_noout 0 ⟨"ls", [], none, some "out"⟩ "out" rfl rfl).2
    "ls > out | wc" shell0 ⟨[⟨"ls", [], none, some "out"⟩, ⟨"wc", [], none, none⟩]⟩
    ClError.E_NONE (Obj.inherited 0) (Obj.inherited 1) rfl rfl rfl rfl
    (fun _ hq => nomatch hq)
  (h.2 (by decide) (fun _ => rfl) (fun _ => rfl)
    (fun _ hj => absurd hj (Nat.not_lt_zero _))).imp fun c hc =>
    ⟨hc, (h.1 c hc).1, (h.1 c hc).2.1, (h.1 c hc).2.2⟩

end Mush

namespace Mytar

/-! ## Rounding to blocks -/

theorem ldiff_511 (m : Nat) : Nat.ldiff m 511 = m - m % 512 := by
  apply Nat.eq_of_testBit_eq
  intro k
  have h511 : (511 : Nat) = 2 ^ 9 - 1 := by norm_num
  have hm : m - m % 512 = 2 ^ 9 * (m / 2 ^ 9) := by
    have := Nat.div_add_mod m 512
    norm_num
    omega
  rw [Nat.testBit_ldiff, h511, Nat.testBit_two_pow_sub_one, hm, Nat.testBit_mul_pow_two]
  by_cases hk : k < 9
  · have : ¬ 9 ≤ k := by omega
    simp [hk, this]
  · have h9 : 9 ≤ k := by omega
    have hk9 : 9 + (k - 9) = k := by omega
    simp [hk, h9]
    rw [show m / 512 = m >>> 9 from (Nat.shiftRight_eq_div_pow m 9).symm,
      Nat.testBit_shiftRight, hk9]

theorem lor_511 (m : Nat) : m ||| 511 = m - m % 512 + 511 := by
  apply Nat.eq_of_testBit_eq
  intro k
  have h511 : (511 : Nat) = 2 ^ 9 - 1 := by norm_num
  have hm : m - m % 512 + 511 = 2 ^ 9 * (m / 2 ^ 9) + 511 := by
    have := Nat.div_add_mod m 512
    norm_num
    omega
  rw [Nat.testBit_or, hm, Nat.testBit_mul_pow_two_add _ (by norm_num : 511 < 2 ^ 9), h511,
    Nat.testBit_two_pow_sub_one]
  by_cases hk : k < 9
  · simp [hk]
  · have hk9 : 9 + (k - 9) = k := by omega
    simp [hk]
    rw [show m / 512 = m >>> 9 from (Nat.shiftRight_eq_div_pow m 9).symm,
      Nat.testBit_shiftRight, hk9]

/-- The arithmetic form of `clear_low9` is the bitwise `x & ~511` (`~511` is `-512`). -/
theorem clear_low9_eq_land (x : Int) : clear_low9 x = Int.land x (-512) := by
  unfold clear_low9
  cases x with
  | ofNat m =>
    show _ = Int.land (Int.ofNat m) (Int.negSucc 511)
    simp only [Int.land, ldiff_511]
    have := Nat.mod_le m 512
    simp only [Int.ofNat_eq_coe]
    omega
  | negSucc m =>
    show _ = Int.land (Int.negSucc m) (Int.negSucc 511)
    simp only [Int.land, lor_511]
    have := Nat.mod_le m 512
    have hd := Nat.div_add_mod m 512
    simp only [Int.negSucc_eq]
    omega

theorem le_roundup (s : Nat) : s ≤ roundup s := by
  unfold roundup
  omega

theorem pad_length (content : List Nat) :
    (content ++ List.replicate (roundup content.length - content.length) 0).length =
      roundup content.length := by
  have := le_roundup content.length
  simp only [List.length_append, List.length_replicate]
  omega

end Mytar
